import Mathlib

/-!
Verification development for the padel-league repository.

This file gives a shallow embedding of the two algorithmic cores of the
repository and proves the specification claims about them:

* `src/utils/scheduleGenerator.ts` : `generateRoundRobinSchedule`
  (round-robin circle method with a literal `"dummy"` bye participant,
  evenly spaced match dates);
* `src/models/ranking.ts` : `updateWithMatchResult` on a standings entry;
* `src/app/api/matches/[id]/route.ts` : `POST` result submission
  (score validation, winner computation) and `updateRankings`
  (per-team stat update plus full-league rank recomputation).

Dates are modelled as integer milliseconds since the epoch, JavaScript
numbers as `Int` (all involved quantities are integral), the Mongo
collection of standings entries as a `List Ranking` with `find?` for
`findOne` and a keyed upsert for `save` (the schema has a unique index
on the pair (league, team)).
-/

namespace Padel

/-- A match document as created by the schedule generator
(`matches.push({...})` in `scheduleGenerator.ts`). -/
structure Fixture where
  league : String
  teamA : String
  teamB : String
  scheduledDate : Int
  location : Option String
  status : String
deriving DecidableEq, Repr, Inhabited

/-- Milliseconds per day, the divisor `1000 * 60 * 60 * 24` used in the source. -/
def msPerDay : Int := 86400000

/-- `teams.splice(1, 0, teams.pop())` : removes the last element and
re-inserts it at position 1 (directly after the fixed first element). -/
def rotateTeams (l : List String) : List String :=
  match l.getLast? with
  | none => l
  | some x =>
    match l.dropLast with
    | [] => [x]
    | a :: rest => a :: x :: rest

/-- The body of the inner generator loop at index `i` : read `teams[i]`
and `teams[teams.length-1-i]`; unless one of them is the literal
`"dummy"`, emit a fixture dated `start + matchIndex` spacing days and
bump `matchIndex`. The state is the emitted fixture list together with
`matchIndex`. -/
def emitStep (lid : String) (venue : Option String) (start db : Int)
    (teams : List String) (acc : List Fixture × Nat) (i : Nat) :
    List Fixture × Nat :=
  let team1 := teams.getD i ""
  let team2 := teams.getD (teams.length - 1 - i) ""
  if team1 != "dummy" && team2 != "dummy" then
    (acc.1 ++ [{ league := lid, teamA := team1, teamB := team2,
                 scheduledDate := start + (acc.2 : Int) * db * msPerDay,
                 location := venue, status := "scheduled" }], acc.2 + 1)
  else acc

/-- One round of the generator loop: `for (i = 0; i < n / 2; i++)`. -/
def roundStep (lid : String) (venue : Option String) (start db : Int)
    (teams : List String) (st : List Fixture × Nat) : List Fixture × Nat :=
  (List.range (teams.length / 2)).foldl (emitStep lid venue start db teams) st

/-- The outer `for (round = 0; round < n - 1; round++)` loop: run a round,
then rotate the team list keeping index 0 fixed. -/
def genRounds (lid : String) (venue : Option String) (start db : Int) :
    Nat → List String → List Fixture × Nat → List Fixture × Nat
  | 0, _, st => st
  | r + 1, teams, st =>
      genRounds lid venue start db r (rotateTeams teams)
        (roundStep lid venue start db teams st)

/-- `Math.floor((end.getTime() - start.getTime()) / (1000*60*60*24))`. -/
def totalDaysOf (startDate endDate : Int) : Int :=
  (endDate - startDate).fdiv msPerDay

/-- `(teamIds.length * (teamIds.length - 1)) / 2`. -/
def totalMatchesOf (n : Nat) : Nat :=
  n * (n - 1) / 2

/-- The working list: a copy of the team ids, padded with the `"dummy"`
placeholder when the count is odd. -/
def paddedTeams (teamIds : List String) : List String :=
  if teamIds.length % 2 == 1 then teamIds ++ ["dummy"] else teamIds

/-- Embedding of `generateRoundRobinSchedule` from `scheduleGenerator.ts`. -/
def generateRoundRobinSchedule (leagueId : String) (teamIds : List String)
    (startDate endDate : Int) (venue : Option String) :
    Except String (List Fixture) :=
  if teamIds.length < 2 then
    .error "At least 2 teams are required to generate a schedule"
  else if totalDaysOf startDate endDate < (totalMatchesOf teamIds.length : Int) then
    .error "Not enough days to schedule all matches"
  else
    let teams := paddedTeams teamIds
    let daysBetweenMatches : Int :=
      (totalDaysOf startDate endDate).fdiv (totalMatchesOf teamIds.length : Int)
    .ok (genRounds leagueId venue startDate daysBetweenMatches
          (teams.length - 1) teams ([], 0)).1

/-- A standings entry (one document of the `Ranking` collection,
`src/models/ranking.ts`). -/
structure Ranking where
  league : String
  team : String
  rank : Int
  matchesPlayed : Int
  matchesWon : Int
  matchesLost : Int
  setsWon : Int
  setsLost : Int
  gamesWon : Int
  gamesLost : Int
  points : Int
  lastUpdated : Int
deriving DecidableEq, Repr, Inhabited

/-- A freshly constructed `new RankingModel({...})` document: the explicit
zero fields of `updateRankings` plus the schema defaults (`rank` defaults
to 1, `lastUpdated` defaults to the current time). -/
def zeroRanking (lid tid : String) (now : Int) : Ranking :=
  { league := lid, team := tid, rank := 1, matchesPlayed := 0, matchesWon := 0,
    matchesLost := 0, setsWon := 0, setsLost := 0, gamesWon := 0, gamesLost := 0,
    points := 0, lastUpdated := now }

/-- Embedding of the schema method `updateWithMatchResult`
(`ranking.ts`, lines 109-133). -/
def updateWithMatchResult (r : Ranking) (isWinner : Bool)
    (setsWon setsLost gamesWon gamesLost pointsPerWin pointsPerLoss now : Int) :
    Ranking :=
  let r1 := { r with matchesPlayed := r.matchesPlayed + 1 }
  let r2 :=
    if isWinner then
      { r1 with matchesWon := r1.matchesWon + 1, points := r1.points + pointsPerWin }
    else
      { r1 with matchesLost := r1.matchesLost + 1, points := r1.points + pointsPerLoss }
  { r2 with setsWon := r2.setsWon + setsWon, setsLost := r2.setsLost + setsLost,
            gamesWon := r2.gamesWon + gamesWon, gamesLost := r2.gamesLost + gamesLost,
            lastUpdated := now }

/-- The `{ league, team }` query used by `findOne` and enforced unique by
the schema index. -/
def keyMatch (lid tid : String) (r : Ranking) : Bool :=
  r.league == lid && r.team == tid

/-- `RankingModel.findOne({ league, team })` on the modelled store. -/
def findRanking (store : List Ranking) (lid tid : String) : Option Ranking :=
  store.find? (keyMatch lid tid)

/-- `doc.save()` : replaces the stored document with the same
(league, team) key, or inserts the document if the key is new
(the schema enforces a unique index on that pair). -/
def saveRanking (store : List Ranking) (x : Ranking) : List Ranking :=
  if store.any (keyMatch x.league x.team) then
    store.map fun y => if keyMatch x.league x.team y then x else y
  else
    store ++ [x]

/-- `teamAScore.filter((score, index) => score > teamBScore[index]).length`. -/
def setsWonBy (a b : List Int) : Nat :=
  (a.zip b).countP fun p => decide (p.2 < p.1)

/-- `teamAScore.reduce((sum, score) => sum + score, 0)`. -/
def gamesWonBy (a : List Int) : Int :=
  a.foldl (· + ·) 0

/-- The entry found by `findOne({ league, team })`, or the lazily created
zeroed entry when none exists yet (`route.ts`, lines 351-366). -/
def entryBefore (store : List Ranking) (lid tid : String) (now : Int) : Ranking :=
  (findRanking store lid tid).getD (zeroRanking lid tid now)

/-- The per-team half of `updateRankings` (`route.ts`, lines 343-408):
compute set and game totals, load or lazily create both standings
entries, apply `updateWithMatchResult` to each with the same match data
and save them. -/
def updateRankingsPhase1 (store : List Ranking) (lid aId bId winId : String)
    (aScore bScore : List Int) (ppw ppl now : Int) : List Ranking :=
  let aSets := setsWonBy aScore bScore
  let bSets := setsWonBy bScore aScore
  let aGames := gamesWonBy aScore
  let bGames := gamesWonBy bScore
  let rankingA' := updateWithMatchResult (entryBefore store lid aId now) (winId == aId)
    (aSets : Int) (bSets : Int) aGames bGames ppw ppl now
  let store1 := saveRanking store rankingA'
  let rankingB' := updateWithMatchResult (entryBefore store1 lid bId now) (winId == bId)
    (bSets : Int) (aSets : Int) bGames aGames ppw ppl now
  saveRanking store1 rankingB'

/-- The Mongo sort key `{ points: -1, matchesWon: -1 }` : descending
points, ties broken by descending matches won. -/
def rankLE (x y : Ranking) : Bool :=
  decide (y.points < x.points) ||
    (x.points == y.points && decide (y.matchesWon ≤ x.matchesWon))

/-- The rank reassignment loop `allRankings[i].rank = i + 1`. -/
def assignRanks : Nat → List Ranking → List Ranking
  | _, [] => []
  | i, r :: rs => { r with rank := (i : Int) + 1 } :: assignRanks (i + 1) rs

/-- `RankingModel.find({ league }).sort({ points: -1, matchesWon: -1 })` :
all the league's entries in sorted order (mergeSort models the stable
deterministic order among exact ties). -/
def leagueTable (store2 : List Ranking) (lid : String) : List Ranking :=
  (store2.filter fun r => r.league == lid).mergeSort rankLE

/-- The sorted league entries with ranks `1..N` assigned in order. -/
def rankedTable (store2 : List Ranking) (lid : String) : List Ranking :=
  assignRanks 0 (leagueTable store2 lid)

/-- Embedding of `updateRankings` (`route.ts`, lines 333-417): update and
save both teams, then reload the whole league sorted by the rank key,
assign ranks `1..N` in that order and save every entry. -/
def updateRankings (store : List Ranking) (lid aId bId winId : String)
    (aScore bScore : List Int) (ppw ppl now : Int) : List Ranking :=
  let store2 := updateRankingsPhase1 store lid aId bId winId aScore bScore ppw ppl now
  (rankedTable store2 lid).foldl saveRanking store2

/-- The stored match result subdocument. -/
structure MatchResult where
  teamAScore : List Int
  teamBScore : List Int
  winner : String
deriving DecidableEq, Repr

/-- The fields of a match document touched by result submission. -/
structure MatchDoc where
  league : String
  teamA : String
  teamB : String
  status : String
  scheduledDate : Int
  result : Option MatchResult
  actualEndTime : Option Int
  submittedBy : Option String
deriving DecidableEq, Repr

/-- The winner-computation loop of `POST` (`route.ts`, lines 238-246):
walk both score arrays in step, counting set wins per side, and throw on
the first tied set. -/
def countSetWins : List (Int × Int) → Except String (Nat × Nat)
  | [] => .ok (0, 0)
  | (a, b) :: rest =>
    if b < a then (countSetWins rest).map fun w => (w.1 + 1, w.2)
    else if a < b then (countSetWins rest).map fun w => (w.1, w.2 + 1)
    else .error "Ties are not allowed in sets"

/-- Embedding of the result-submission core of `POST`
(`route.ts`, lines 193-289), starting after the authorization checks
(session and team membership are opaque inputs per the specification):
status check, score validation, winner computation, then the match
mutation and the standings update. A `some` score input models a
present JSON array (an empty array is truthy in JavaScript, so the
presence check only rejects absent scores). `submitScores` is the part
of the handler from the score-length validation onward. -/
def submitScores (m : MatchDoc) (store : List Ranking) (ppw ppl : Int)
    (sa sb : List Int) (userId : String) (now : Int) :
    Except String (MatchDoc × List Ranking) :=
  if sa.length != sb.length then
    .error "Scores must have the same number of sets"
  else if sa.length == 0 then
    .error "At least one set must be played"
  else
    match countSetWins (sa.zip sb) with
    | .error e => .error e
    | .ok w =>
      if w.2 < w.1 then
        .ok ({ m with result := some ⟨sa, sb, m.teamA⟩, status := "completed",
                      actualEndTime := some now, submittedBy := some userId },
             updateRankings store m.league m.teamA m.teamB m.teamA sa sb ppw ppl now)
      else if w.1 < w.2 then
        .ok ({ m with result := some ⟨sa, sb, m.teamB⟩, status := "completed",
                      actualEndTime := some now, submittedBy := some userId },
             updateRankings store m.league m.teamA m.teamB m.teamB sa sb ppw ppl now)
      else
        .error "Match must have a winner"

/-- The full submission core: status check, score presence check, then
`submitScores`. -/
def submitMatchResult (m : MatchDoc) (store : List Ranking) (ppw ppl : Int)
    (teamAScore teamBScore : Option (List Int)) (userId : String) (now : Int) :
    Except String (MatchDoc × List Ranking) :=
  if m.status != "in_progress" && m.status != "scheduled" then
    .error "Results can only be submitted for scheduled or in-progress matches"
  else
    match teamAScore, teamBScore with
    | none, _ => .error "Scores for both teams are required"
    | some _, none => .error "Scores for both teams are required"
    | some sa, some sb => submitScores m store ppw ppl sa sb userId now

/-- Boolean test that an emitted pair is the unordered pair `(p, q)`. -/
def pairMatch (p q : String) (ab : String × String) : Bool :=
  (ab.1 == p && ab.2 == q) || (ab.1 == q && ab.2 == p)

/-- Boolean test that a fixture pairs exactly the participants `p` and `q`. -/
def fixtureMatch (p q : String) (f : Fixture) : Bool :=
  (f.teamA == p && f.teamB == q) || (f.teamA == q && f.teamB == p)

/-! ### Lemmas about the winner-computation loop -/

/-- When no set is tied the loop returns both set-win counters. -/
lemma countSetWins_of_no_tie (l : List (Int × Int)) (h : ∀ p ∈ l, p.1 ≠ p.2) :
    countSetWins l =
      .ok (l.countP (fun p => decide (p.2 < p.1)), l.countP (fun p => decide (p.1 < p.2))) := by
  induction l with
  | nil => simp [countSetWins]
  | cons p rest ih =>
    obtain ⟨a, b⟩ := p
    have hab : a ≠ b := h (a, b) (List.mem_cons_self _ _)
    have hrest := ih fun q hq => h q (List.mem_cons_of_mem _ hq)
    rcases lt_or_gt_of_ne hab with hlt | hgt
    · have h1 : ¬ b < a := not_lt.mpr hlt.le
      simp [countSetWins, h1, hlt, hrest, Except.map, List.countP_cons]
    · have h2 : ¬ a < b := not_lt.mpr hgt.le
      simp [countSetWins, h2, hgt, hrest, Except.map, List.countP_cons]

/-- A tied set anywhere makes the loop throw. -/
lemma countSetWins_of_tie (l : List (Int × Int)) (h : ∃ p ∈ l, p.1 = p.2) :
    countSetWins l = .error "Ties are not allowed in sets" := by
  induction l with
  | nil => simp at h
  | cons p rest ih =>
    obtain ⟨a, b⟩ := p
    rcases h with ⟨q, hq, hqeq⟩
    rcases List.mem_cons.mp hq with rfl | hmem
    · simp only at hqeq
      subst hqeq
      simp [countSetWins]
    · have := ih ⟨q, hmem, hqeq⟩
      by_cases h1 : b < a
      · simp [countSetWins, h1, this, Except.map]
      · by_cases h2 : a < b
        · simp [countSetWins, h1, h2, this, Except.map]
        · simp [countSetWins, h1, h2]

/-- Counting the swapped zip counts the other side's set wins. -/
lemma setsWonBy_swap (a b : List Int) :
    setsWonBy b a = (a.zip b).countP fun p => decide (p.1 < p.2) := by
  unfold setsWonBy
  rw [← List.zip_swap a b, List.countP_map]
  rfl

/-! ### C7 : the per-entry update has no duplicate detection -/

/-- C7: applying `updateWithMatchResult` twice with the same arguments
increments `matchesPlayed` by 2 and doubles every other increment
relative to a single application; in particular the update is not
idempotent, so duplicate-guarding is the caller's responsibility. -/
theorem updateWithMatchResult_not_idempotent (r : Ranking) (w : Bool)
    (sw sl gw gl ppw ppl t₁ t₂ : Int) :
    (updateWithMatchResult (updateWithMatchResult r w sw sl gw gl ppw ppl t₁)
        w sw sl gw gl ppw ppl t₂).matchesPlayed = r.matchesPlayed + 2 ∧
    (updateWithMatchResult (updateWithMatchResult r w sw sl gw gl ppw ppl t₁)
        w sw sl gw gl ppw ppl t₂).matchesWon
      = r.matchesWon + 2 * (if w then 1 else 0) ∧
    (updateWithMatchResult (updateWithMatchResult r w sw sl gw gl ppw ppl t₁)
        w sw sl gw gl ppw ppl t₂).matchesLost
      = r.matchesLost + 2 * (if w then 0 else 1) ∧
    (updateWithMatchResult (updateWithMatchResult r w sw sl gw gl ppw ppl t₁)
        w sw sl gw gl ppw ppl t₂).points
      = r.points + 2 * (if w then ppw else ppl) ∧
    (updateWithMatchResult (updateWithMatchResult r w sw sl gw gl ppw ppl t₁)
        w sw sl gw gl ppw ppl t₂).setsWon = r.setsWon + 2 * sw ∧
    (updateWithMatchResult (updateWithMatchResult r w sw sl gw gl ppw ppl t₁)
        w sw sl gw gl ppw ppl t₂).setsLost = r.setsLost + 2 * sl ∧
    (updateWithMatchResult (updateWithMatchResult r w sw sl gw gl ppw ppl t₁)
        w sw sl gw gl ppw ppl t₂).gamesWon = r.gamesWon + 2 * gw ∧
    (updateWithMatchResult (updateWithMatchResult r w sw sl gw gl ppw ppl t₁)
        w sw sl gw gl ppw ppl t₂).gamesLost = r.gamesLost + 2 * gl ∧
    (updateWithMatchResult (updateWithMatchResult r w sw sl gw gl ppw ppl t₁)
        w sw sl gw gl ppw ppl t₂).matchesPlayed
      ≠ (updateWithMatchResult r w sw sl gw gl ppw ppl t₁).matchesPlayed := by
  cases w <;> simp [updateWithMatchResult] <;> omega

/-! ### C10 : per-entry update invariants -/

/-- C10: the per-entry update preserves
`matchesWon + matchesLost = matchesPlayed`, and with non-negative
points-per-result, set counts and game counts it never decreases any
cumulative counter. -/
theorem updateWithMatchResult_invariants (r : Ranking) (w : Bool)
    (sw sl gw gl ppw ppl t : Int)
    (hinv : r.matchesWon + r.matchesLost = r.matchesPlayed)
    (hsw : 0 ≤ sw) (hsl : 0 ≤ sl) (hgw : 0 ≤ gw) (hgl : 0 ≤ gl)
    (hppw : 0 ≤ ppw) (hppl : 0 ≤ ppl) :
    (updateWithMatchResult r w sw sl gw gl ppw ppl t).matchesWon +
        (updateWithMatchResult r w sw sl gw gl ppw ppl t).matchesLost =
      (updateWithMatchResult r w sw sl gw gl ppw ppl t).matchesPlayed ∧
    r.matchesPlayed ≤ (updateWithMatchResult r w sw sl gw gl ppw ppl t).matchesPlayed ∧
    r.matchesWon ≤ (updateWithMatchResult r w sw sl gw gl ppw ppl t).matchesWon ∧
    r.matchesLost ≤ (updateWithMatchResult r w sw sl gw gl ppw ppl t).matchesLost ∧
    r.setsWon ≤ (updateWithMatchResult r w sw sl gw gl ppw ppl t).setsWon ∧
    r.setsLost ≤ (updateWithMatchResult r w sw sl gw gl ppw ppl t).setsLost ∧
    r.gamesWon ≤ (updateWithMatchResult r w sw sl gw gl ppw ppl t).gamesWon ∧
    r.gamesLost ≤ (updateWithMatchResult r w sw sl gw gl ppw ppl t).gamesLost ∧
    r.points ≤ (updateWithMatchResult r w sw sl gw gl ppw ppl t).points := by
  cases w <;> simp [updateWithMatchResult] <;> omega

/-- Witness for C10 at a concrete entry and concrete non-negative data. -/
theorem updateWithMatchResult_invariants_witness :
    ((zeroRanking "L" "t" 0).matchesWon + (zeroRanking "L" "t" 0).matchesLost =
        (zeroRanking "L" "t" 0).matchesPlayed) ∧
    (updateWithMatchResult (zeroRanking "L" "t" 0) true 2 1 16 13 3 1 5).matchesWon +
        (updateWithMatchResult (zeroRanking "L" "t" 0) true 2 1 16 13 3 1 5).matchesLost =
      (updateWithMatchResult (zeroRanking "L" "t" 0) true 2 1 16 13 3 1 5).matchesPlayed := by
  refine ⟨by decide, ?_⟩
  exact (updateWithMatchResult_invariants (zeroRanking "L" "t" 0) true 2 1 16 13 3 1 5
    (by decide) (by decide) (by decide) (by decide) (by decide) (by decide) (by decide)).1

/-! ### C8 : generator determinism -/

/-- C8: the schedule generator is deterministic; two invocations with
identical participant lists, dates and venue return identical fixture
lists. -/
theorem generateRoundRobinSchedule_deterministic
    (lid₁ lid₂ : String) (ids₁ ids₂ : List String) (s₁ s₂ e₁ e₂ : Int)
    (v₁ v₂ : Option String)
    (hl : lid₁ = lid₂) (hi : ids₁ = ids₂) (hs : s₁ = s₂) (he : e₁ = e₂) (hv : v₁ = v₂) :
    generateRoundRobinSchedule lid₁ ids₁ s₁ e₁ v₁ =
      generateRoundRobinSchedule lid₂ ids₂ s₂ e₂ v₂ := by
  subst hl hi hs he hv
  rfl

/-- Witness for C8 on a concrete invocation. -/
theorem generateRoundRobinSchedule_deterministic_witness :
    generateRoundRobinSchedule "L" ["a", "b"] 0 (2 * msPerDay) none =
      generateRoundRobinSchedule "L" ["a", "b"] 0 (2 * msPerDay) none :=
  generateRoundRobinSchedule_deterministic "L" "L" ["a", "b"] ["a", "b"]
    0 0 (2 * msPerDay) (2 * msPerDay) none none rfl rfl rfl rfl rfl

/-! ### C5 : generator failure modes -/

/-- C5: the generator fails with the insufficient-participants error
exactly when fewer than two participants are given; for at least two it
fails with the insufficient-window error exactly when
`floor((endDate - startDate) in days) < n*(n-1)/2`; otherwise it
succeeds. -/
theorem generateRoundRobinSchedule_error_characterization
    (lid : String) (ids : List String) (s e : Int) (v : Option String) :
    (generateRoundRobinSchedule lid ids s e v =
        .error "At least 2 teams are required to generate a schedule" ↔
      ids.length < 2) ∧
    (generateRoundRobinSchedule lid ids s e v =
        .error "Not enough days to schedule all matches" ↔
      2 ≤ ids.length ∧
        totalDaysOf s e < (totalMatchesOf ids.length : Int)) ∧
    (2 ≤ ids.length →
      ¬ totalDaysOf s e < (totalMatchesOf ids.length : Int) →
      ∃ fs, generateRoundRobinSchedule lid ids s e v = .ok fs) := by
  have hmsg : ("At least 2 teams are required to generate a schedule" : String) ≠
      "Not enough days to schedule all matches" := by decide
  unfold generateRoundRobinSchedule
  split_ifs with h2 hw
  · refine ⟨by simp [h2], ?_, by omega⟩
    constructor
    · intro h
      exact absurd (Except.error.inj h) hmsg
    · intro h
      omega
  · refine ⟨?_, by simp [h2, hw]; omega, fun _ hnw => absurd hw hnw⟩
    constructor
    · intro h
      exact absurd (Except.error.inj h) hmsg.symm
    · intro h
      omega
  · refine ⟨?_, ?_, fun _ _ => ⟨_, rfl⟩⟩
    · constructor
      · intro h
        exact absurd h (by simp)
      · intro h
        omega
    · constructor
      · intro h
        exact absurd h (by simp)
      · intro h
        exact absurd h.2 hw

/-- Witness for C5: four participants with a 3-day window are rejected
with the insufficient-window error, and with a 6-day window succeed. -/
theorem generateRoundRobinSchedule_error_characterization_witness :
    generateRoundRobinSchedule "L" ["a", "b", "c", "d"] 0 (3 * msPerDay) none =
        .error "Not enough days to schedule all matches" ∧
    ∃ fs, generateRoundRobinSchedule "L" ["a", "b", "c", "d"] 0 (6 * msPerDay) none =
        .ok fs := by
  constructor
  · exact (generateRoundRobinSchedule_error_characterization
      "L" ["a", "b", "c", "d"] 0 (3 * msPerDay) none).2.1.mpr (by decide)
  · exact (generateRoundRobinSchedule_error_characterization
      "L" ["a", "b", "c", "d"] 0 (6 * msPerDay) none).2.2 (by decide) (by decide)

/-! ### C9 : the bye placeholder is the literal string "dummy" -/

/-- C9: a participant whose id is the literal string `"dummy"` collides
with the bye placeholder: for the two distinct participants
`["a", "dummy"]` with a sufficient window the generator succeeds but
silently skips the pairing involving `"dummy"` and returns zero
fixtures instead of `2*(2-1)/2 = 1`. -/
theorem bye_placeholder_collision :
    generateRoundRobinSchedule "L" ["a", "dummy"] 0 msPerDay none = .ok [] ∧
    ([] : List Fixture).length < 2 * (2 - 1) / 2 := by
  exact ⟨rfl, by decide⟩

/-! ### C4 : result-submission validation -/

/-- C4: with a submittable match status, result submission fails with an
invalid-result error exactly when the score arrays have mismatched
lengths, are empty, contain a tied set, or give both sides the same
number of set wins; the model passes state explicitly, so an error
outcome carries no updated match or standings state (all writes happen
only in the success branch, after every validation). -/
theorem submitResult_invalidResult_iff (m : MatchDoc) (store : List Ranking)
    (ppw ppl : Int) (sa sb : List Int) (uid : String) (now : Int)
    (hstatus : m.status = "scheduled" ∨ m.status = "in_progress") :
    (∃ msg, submitMatchResult m store ppw ppl (some sa) (some sb) uid now = .error msg ∧
        msg ∈ ["Scores must have the same number of sets", "At least one set must be played",
               "Ties are not allowed in sets", "Match must have a winner"]) ↔
      (sa.length ≠ sb.length ∨ sa = [] ∨ (∃ p ∈ sa.zip sb, p.1 = p.2) ∨
        setsWonBy sa sb = setsWonBy sb sa) := by
  have hst : (m.status != "in_progress" && m.status != "scheduled") = false := by
    rcases hstatus with h | h <;> simp [h]
  have hred : submitMatchResult m store ppw ppl (some sa) (some sb) uid now =
      submitScores m store ppw ppl sa sb uid now := by
    unfold submitMatchResult
    rw [hst, if_neg (by simp : ¬ (false = true))]
  rw [hred]
  unfold submitScores
  by_cases hlen : sa.length = sb.length
  · by_cases hemp : sa = []
    · subst hemp
      have hsb : sb = [] := List.length_eq_zero.mp hlen.symm
      subst hsb
      refine iff_of_true ⟨"At least one set must be played", by simp, by simp⟩
        (Or.inr (Or.inl rfl))
    · have hlenne : (sa.length != sb.length) = false := by simp [hlen]
      have hempne : (sa.length == 0) = false := by
        simp [List.length_eq_zero, hemp]
      by_cases htie : ∃ p ∈ sa.zip sb, p.1 = p.2
      · rw [countSetWins_of_tie _ htie]
        refine iff_of_true ⟨"Ties are not allowed in sets", ?_, by simp⟩
          (Or.inr (Or.inr (Or.inl htie)))
        simp [hlenne, hempne]
      · have hnotie : ∀ p ∈ sa.zip sb, p.1 ≠ p.2 :=
          fun p hp hpe => htie ⟨p, hp, hpe⟩
        rw [countSetWins_of_no_tie _ hnotie]
        by_cases hord : (sa.zip sb).countP (fun p => decide (p.2 < p.1)) =
            (sa.zip sb).countP (fun p => decide (p.1 < p.2))
        · have h1 : ¬ (sa.zip sb).countP (fun p => decide (p.1 < p.2)) <
              (sa.zip sb).countP (fun p => decide (p.2 < p.1)) := by omega
          have h2 : ¬ (sa.zip sb).countP (fun p => decide (p.2 < p.1)) <
              (sa.zip sb).countP (fun p => decide (p.1 < p.2)) := by omega
          refine iff_of_true ⟨"Match must have a winner", ?_, by simp⟩
            (Or.inr (Or.inr (Or.inr ?_)))
          · simp [hlenne, hempne, h1, h2]
          · rw [setsWonBy_swap sa sb]
            exact hord
        · refine iff_of_false ?_ ?_
          · by_cases hc : (sa.zip sb).countP (fun p => decide (p.1 < p.2)) <
                (sa.zip sb).countP (fun p => decide (p.2 < p.1))
            · rintro ⟨msg, hmsg', -⟩
              rw [hlenne] at hmsg'
              simp only [Bool.false_eq_true, if_false, hempne, hc, if_true] at hmsg'
              exact Except.noConfusion hmsg'
            · have hc' : (sa.zip sb).countP (fun p => decide (p.2 < p.1)) <
                  (sa.zip sb).countP (fun p => decide (p.1 < p.2)) := by
                omega
              rintro ⟨msg, hmsg', -⟩
              rw [hlenne] at hmsg'
              simp only [Bool.false_eq_true, if_false, hempne, hc, hc', if_true] at hmsg'
              exact Except.noConfusion hmsg'
          · rintro (h | h | h | h)
            · exact h hlen
            · exact hemp h
            · exact htie h
            · rw [setsWonBy_swap sa sb] at h
              exact hord h
  · have hlenne : (sa.length != sb.length) = true := by simp [hlen]
    rw [hlenne]
    refine iff_of_true ⟨"Scores must have the same number of sets", by simp, by simp⟩
      (Or.inl hlen)

/-- Witness for C4 at a concrete tied match `[6,4]` vs `[4,6]`
(equal set-win counts) with a scheduled match. -/
theorem submitResult_invalidResult_iff_witness :
    (∃ msg, submitMatchResult
        { league := "L", teamA := "a", teamB := "b", status := "scheduled",
          scheduledDate := 0, result := none, actualEndTime := none, submittedBy := none }
        [] 3 1 (some [6, 4]) (some [4, 6]) "u" 0 = .error msg ∧
        msg ∈ ["Scores must have the same number of sets", "At least one set must be played",
               "Ties are not allowed in sets", "Match must have a winner"]) := by
  exact (submitResult_invalidResult_iff
    { league := "L", teamA := "a", teamB := "b", status := "scheduled",
      scheduledDate := 0, result := none, actualEndTime := none, submittedBy := none }
    [] 3 1 [6, 4] [4, 6] "u" 0 (Or.inl rfl)).mpr (by right; right; right; decide)

/-! ### Store lemmas: `findOne` after `save` -/

lemma keyMatch_iff (lid tid : String) (r : Ranking) :
    keyMatch lid tid r = true ↔ r.league = lid ∧ r.team = tid := by
  simp [keyMatch]

lemma find?_map_upsert_same (s : List Ranking) (x : Ranking)
    (hany : s.any (keyMatch x.league x.team) = true) :
    (s.map fun y => if keyMatch x.league x.team y then x else y).find?
      (keyMatch x.league x.team) = some x := by
  induction s with
  | nil => simp at hany
  | cons y ys ih =>
    by_cases hy : keyMatch x.league x.team y = true
    · rw [List.map_cons, if_pos hy]
      exact List.find?_cons_of_pos _ ((keyMatch_iff _ _ _).mpr ⟨rfl, rfl⟩)
    · have hany' : ys.any (keyMatch x.league x.team) = true := by
        rcases List.any_eq_true.mp hany with ⟨z, hz, hpz⟩
        rcases List.mem_cons.mp hz with rfl | hz'
        · exact absurd hpz hy
        · exact List.any_eq_true.mpr ⟨z, hz', hpz⟩
      rw [List.map_cons, if_neg hy, List.find?_cons_of_neg _ hy]
      exact ih hany'

lemma find?_map_upsert_other (s : List Ranking) (x : Ranking) (lid tid : String)
    (h : ¬ (x.league = lid ∧ x.team = tid)) :
    (s.map fun y => if keyMatch x.league x.team y then x else y).find? (keyMatch lid tid) =
      s.find? (keyMatch lid tid) := by
  have hpx : ¬ keyMatch lid tid x = true := fun hc => h ((keyMatch_iff _ _ _).mp hc)
  induction s with
  | nil => rfl
  | cons y ys ih =>
    by_cases hy : keyMatch x.league x.team y = true
    · have hykey := (keyMatch_iff _ _ _).mp hy
      have hpy : ¬ keyMatch lid tid y = true := fun hc => by
        rcases (keyMatch_iff _ _ _).mp hc with ⟨h1, h2⟩
        exact h ⟨by rw [← hykey.1]; exact h1, by rw [← hykey.2]; exact h2⟩
      rw [List.map_cons, if_pos hy, List.find?_cons_of_neg _ hpx,
        List.find?_cons_of_neg _ hpy]
      exact ih
    · rw [List.map_cons, if_neg hy]
      by_cases hpy : keyMatch lid tid y = true
      · rw [List.find?_cons_of_pos _ hpy, List.find?_cons_of_pos _ hpy]
      · rw [List.find?_cons_of_neg _ hpy, List.find?_cons_of_neg _ hpy]
        exact ih

lemma findRanking_save_same (s : List Ranking) (x : Ranking) :
    findRanking (saveRanking s x) x.league x.team = some x := by
  unfold findRanking saveRanking
  by_cases hany : s.any (keyMatch x.league x.team) = true
  · rw [if_pos hany]
    exact find?_map_upsert_same s x hany
  · rw [if_neg hany, List.find?_append]
    have h1 : s.find? (keyMatch x.league x.team) = none :=
      List.find?_eq_none.mpr fun y hy hpy => hany (List.any_eq_true.mpr ⟨y, hy, hpy⟩)
    rw [h1, List.find?_cons_of_pos _ ((keyMatch_iff _ _ _).mpr ⟨rfl, rfl⟩)]
    rfl

lemma findRanking_save_other (s : List Ranking) (x : Ranking) (lid tid : String)
    (h : ¬ (x.league = lid ∧ x.team = tid)) :
    findRanking (saveRanking s x) lid tid = findRanking s lid tid := by
  have hpx : ¬ keyMatch lid tid x = true := fun hc => h ((keyMatch_iff _ _ _).mp hc)
  unfold findRanking saveRanking
  by_cases hany : s.any (keyMatch x.league x.team) = true
  · rw [if_pos hany]
    exact find?_map_upsert_other s x lid tid h
  · rw [if_neg hany, List.find?_append, List.find?_cons_of_neg _ hpx]
    cases s.find? (keyMatch lid tid) <;> rfl

lemma findRanking_foldl_save_of_not_mem (xs : List Ranking) (s : List Ranking)
    (lid tid : String) (h : ∀ x ∈ xs, ¬ (x.league = lid ∧ x.team = tid)) :
    findRanking (xs.foldl saveRanking s) lid tid = findRanking s lid tid := by
  induction xs generalizing s with
  | nil => rfl
  | cons x xs ih =>
    rw [List.foldl_cons, ih (saveRanking s x) fun y hy => h y (List.mem_cons_of_mem _ hy)]
    exact findRanking_save_other s x lid tid (h x (List.mem_cons_self _ _))

lemma findRanking_foldl_save_of_mem (xs : List Ranking) (s : List Ranking) (x : Ranking)
    (hx : x ∈ xs)
    (huniq : ∀ y ∈ xs, y.league = x.league → y.team = x.team → y = x) :
    findRanking (xs.foldl saveRanking s) x.league x.team = some x := by
  induction xs generalizing s with
  | nil => simp at hx
  | cons z zs ih =>
    rw [List.foldl_cons]
    by_cases hxz : x ∈ zs
    · exact ih (saveRanking s z) hxz fun y hy => huniq y (List.mem_cons_of_mem _ hy)
    · have hzx : z = x := by
        rcases List.mem_cons.mp hx with rfl | hmem
        · rfl
        · exact absurd hmem hxz
      subst hzx
      rw [findRanking_foldl_save_of_not_mem zs (saveRanking s z) z.league z.team ?_]
      · exact findRanking_save_same s z
      · rintro y hy ⟨h1, h2⟩
        have hyz := huniq y (List.mem_cons_of_mem _ hy) h1 h2
        exact hxz (hyz ▸ hy)

/-! ### Key lists and their uniqueness -/

/-- The (league, team) keys of a store, in store order. -/
def keysOf (s : List Ranking) : List (String × String) :=
  s.map fun r => (r.league, r.team)

lemma keysOf_saveRanking_nodup (s : List Ranking) (x : Ranking)
    (hkeys : (keysOf s).Nodup) : (keysOf (saveRanking s x)).Nodup := by
  unfold saveRanking
  by_cases hany : s.any (keyMatch x.league x.team) = true
  · rw [if_pos hany]
    have heq : keysOf (s.map fun y => if keyMatch x.league x.team y then x else y) =
        keysOf s := by
      unfold keysOf
      rw [List.map_map]
      apply List.map_congr_left
      intro y hy
      by_cases hy' : keyMatch x.league x.team y = true
      · rcases (keyMatch_iff _ _ _).mp hy' with ⟨h1, h2⟩
        simp [Function.comp, hy', h1, h2]
      · simp [Function.comp, hy']
    rw [heq]
    exact hkeys
  · rw [if_neg hany]
    unfold keysOf
    rw [List.map_append]
    refine hkeys.append (by simp) ?_
    intro k hk hk2
    simp only [List.map_cons, List.map_nil, List.mem_singleton] at hk2
    subst hk2
    rcases List.mem_map.mp hk with ⟨y, hy, hky⟩
    apply hany
    refine List.any_eq_true.mpr ⟨y, hy, (keyMatch_iff _ _ _).mpr ?_⟩
    exact ⟨congrArg Prod.fst hky, congrArg Prod.snd hky⟩

lemma eq_of_keysOf_nodup (s : List Ranking) (h : (keysOf s).Nodup) :
    ∀ x ∈ s, ∀ y ∈ s, y.league = x.league → y.team = x.team → y = x := by
  induction s with
  | nil => simp
  | cons z zs ih =>
    have hcons : keysOf (z :: zs) = (z.league, z.team) :: keysOf zs := rfl
    rw [hcons, List.nodup_cons] at h
    intro x hx y hy h1 h2
    rcases List.mem_cons.mp hx with rfl | hx' <;> rcases List.mem_cons.mp hy with rfl | hy'
    · rfl
    · exact absurd (List.mem_map.mpr ⟨y, hy', by rw [h1, h2]⟩) h.1
    · exact absurd (List.mem_map.mpr ⟨x, hx', by rw [← h1, ← h2]⟩) h.1
    · exact ih h.2 x hx' y hy' h1 h2

/-! ### Field lemmas for the per-entry update -/

lemma updateWithMatchResult_league (r : Ranking) (w : Bool)
    (sw sl gw gl ppw ppl now : Int) :
    (updateWithMatchResult r w sw sl gw gl ppw ppl now).league = r.league := by
  cases w <;> rfl

lemma updateWithMatchResult_team (r : Ranking) (w : Bool)
    (sw sl gw gl ppw ppl now : Int) :
    (updateWithMatchResult r w sw sl gw gl ppw ppl now).team = r.team := by
  cases w <;> rfl

lemma entryBefore_league (store : List Ranking) (lid tid : String) (now : Int) :
    (entryBefore store lid tid now).league = lid := by
  unfold entryBefore
  cases hf : findRanking store lid tid with
  | none => rfl
  | some r =>
    exact ((keyMatch_iff _ _ _).mp (List.find?_some hf)).1

lemma entryBefore_team (store : List Ranking) (lid tid : String) (now : Int) :
    (entryBefore store lid tid now).team = tid := by
  unfold entryBefore
  cases hf : findRanking store lid tid with
  | none => rfl
  | some r =>
    exact ((keyMatch_iff _ _ _).mp (List.find?_some hf)).2

/-! ### Rank assignment and the sort key -/

lemma assignRanks_length (i : Nat) (xs : List Ranking) :
    (assignRanks i xs).length = xs.length := by
  induction xs generalizing i with
  | nil => rfl
  | cons y ys ih => simp [assignRanks, ih]

lemma assignRanks_rank_getD (i : Nat) (xs : List Ranking) (j : Nat) (hj : j < xs.length) :
    ((assignRanks i xs).getD j default).rank = ((i + j : Nat) : Int) + 1 := by
  induction xs generalizing i j with
  | nil => simp at hj
  | cons y ys ih =>
    cases j with
    | zero => simp [assignRanks]
    | succ j' =>
      have hj' : j' < ys.length := by simpa using hj
      have := ih (i + 1) j' hj'
      simp only [assignRanks, List.getD_cons_succ]
      rw [this]
      congr 1
      omega

lemma mem_assignRanks_elim (i : Nat) (xs : List Ranking) (w : Ranking)
    (hw : w ∈ assignRanks i xs) : ∃ z ∈ xs, ∃ k : Int, w = { z with rank := k } := by
  induction xs generalizing i with
  | nil => simp [assignRanks] at hw
  | cons y ys ih =>
    rcases List.mem_cons.mp hw with rfl | hw'
    · exact ⟨y, List.mem_cons_self _ _, (i : Int) + 1, rfl⟩
    · rcases ih (i + 1) hw' with ⟨z, hz, k, hk⟩
      exact ⟨z, List.mem_cons_of_mem _ hz, k, hk⟩

lemma mem_assignRanks_of_mem (i : Nat) (xs : List Ranking) (z : Ranking)
    (hz : z ∈ xs) : ∃ k : Int, { z with rank := k } ∈ assignRanks i xs := by
  induction xs generalizing i with
  | nil => simp at hz
  | cons y ys ih =>
    rcases List.mem_cons.mp hz with rfl | hz'
    · exact ⟨(i : Int) + 1, List.mem_cons_self _ _⟩
    · rcases ih (i + 1) hz' with ⟨k, hk⟩
      exact ⟨k, List.mem_cons_of_mem _ hk⟩

lemma assignRanks_keysOf (i : Nat) (xs : List Ranking) :
    keysOf (assignRanks i xs) = keysOf xs := by
  induction xs generalizing i with
  | nil => rfl
  | cons y ys ih =>
    show (y.league, y.team) :: keysOf (assignRanks (i + 1) ys) =
      (y.league, y.team) :: keysOf ys
    rw [ih]

lemma rankLE_rank_irrel (a b : Ranking) (k k' : Int) :
    rankLE { a with rank := k } { b with rank := k' } = rankLE a b := rfl

lemma rankLE_trans : ∀ a b c : Ranking, rankLE a b → rankLE b c → rankLE a c := by
  intro a b c hab hbc
  simp only [rankLE, Bool.or_eq_true, Bool.and_eq_true, decide_eq_true_eq,
    beq_iff_eq] at hab hbc ⊢
  rcases hab with h1 | ⟨h1, h2⟩ <;> rcases hbc with h3 | ⟨h3, h4⟩
  · left; omega
  · left; omega
  · left; omega
  · right; exact ⟨by omega, by omega⟩

lemma rankLE_total : ∀ a b : Ranking, rankLE a b || rankLE b a := by
  intro a b
  simp only [rankLE, Bool.or_eq_true, Bool.and_eq_true, decide_eq_true_eq, beq_iff_eq]
  omega

lemma assignRanks_pairwise (i : Nat) (xs : List Ranking)
    (h : xs.Pairwise fun x y => rankLE x y = true) :
    (assignRanks i xs).Pairwise fun x y => rankLE x y = true := by
  induction xs generalizing i with
  | nil => exact List.Pairwise.nil
  | cons y ys ih =>
    rcases List.pairwise_cons.mp h with ⟨hy, hys⟩
    refine List.pairwise_cons.mpr ⟨?_, ih (i + 1) hys⟩
    intro w hw
    rcases mem_assignRanks_elim (i + 1) ys w hw with ⟨z, hz, k, rfl⟩
    rw [show ({ y with rank := (i : Int) + 1 } : Ranking) =
      { y with rank := (i : Int) + 1 } from rfl]
    rw [rankLE_rank_irrel y z ((i : Int) + 1) k]
    exact hy z hz

/-! ### The two per-team updates of `updateRankings`, named -/

/-- The updated standings entry of one side, as computed by
`updateRankingsPhase1` from the original store: own score list `own`,
opponent score list `opp`. -/
def updatedEntry (store : List Ranking) (lid tid winId : String)
    (own opp : List Int) (ppw ppl now : Int) : Ranking :=
  updateWithMatchResult (entryBefore store lid tid now) (winId == tid)
    (setsWonBy own opp : Int) (setsWonBy opp own : Int)
    (gamesWonBy own) (gamesWonBy opp) ppw ppl now

lemma updatedEntry_league (store : List Ranking) (lid tid winId : String)
    (own opp : List Int) (ppw ppl now : Int) :
    (updatedEntry store lid tid winId own opp ppw ppl now).league = lid := by
  unfold updatedEntry
  rw [updateWithMatchResult_league, entryBefore_league]

lemma updatedEntry_team (store : List Ranking) (lid tid winId : String)
    (own opp : List Int) (ppw ppl now : Int) :
    (updatedEntry store lid tid winId own opp ppw ppl now).team = tid := by
  unfold updatedEntry
  rw [updateWithMatchResult_team, entryBefore_team]

/-- With distinct team ids, the second `findOne` of the per-team phase is
unaffected by the first save, so both updated entries are computed from
the original store. -/
lemma updateRankingsPhase1_eq (store : List Ranking) (lid aId bId winId : String)
    (sa sb : List Int) (ppw ppl now : Int) (hab : aId ≠ bId) :
    updateRankingsPhase1 store lid aId bId winId sa sb ppw ppl now =
      saveRanking (saveRanking store (updatedEntry store lid aId winId sa sb ppw ppl now))
        (updatedEntry store lid bId winId sb sa ppw ppl now) := by
  simp only [updateRankingsPhase1, updatedEntry]
  have hfind : entryBefore
      (saveRanking store (updateWithMatchResult (entryBefore store lid aId now)
        (winId == aId) (setsWonBy sa sb : Int) (setsWonBy sb sa : Int)
        (gamesWonBy sa) (gamesWonBy sb) ppw ppl now)) lid bId now =
      entryBefore store lid bId now := by
    have hfr : findRanking
        (saveRanking store (updateWithMatchResult (entryBefore store lid aId now)
          (winId == aId) (setsWonBy sa sb : Int) (setsWonBy sb sa : Int)
          (gamesWonBy sa) (gamesWonBy sb) ppw ppl now)) lid bId =
        findRanking store lid bId := by
      apply findRanking_save_other
      rintro ⟨-, h2⟩
      rw [updateWithMatchResult_team, entryBefore_team] at h2
      exact hab h2
    exact congrArg (fun o => o.getD (zeroRanking lid bId now)) hfr
  rw [hfind]

lemma findRanking_save_same' (s : List Ranking) (x : Ranking) (lid tid : String)
    (hl : x.league = lid) (ht : x.team = tid) :
    findRanking (saveRanking s x) lid tid = some x := by
  subst hl
  subst ht
  exact findRanking_save_same s x

lemma findRanking_phase1_A (store : List Ranking) (lid aId bId winId : String)
    (sa sb : List Int) (ppw ppl now : Int) (hab : aId ≠ bId) :
    findRanking (updateRankingsPhase1 store lid aId bId winId sa sb ppw ppl now) lid aId =
      some (updatedEntry store lid aId winId sa sb ppw ppl now) := by
  rw [updateRankingsPhase1_eq store lid aId bId winId sa sb ppw ppl now hab]
  rw [findRanking_save_other]
  · exact findRanking_save_same' _ _ _ _ (updatedEntry_league _ _ _ _ _ _ _ _ _)
      (updatedEntry_team _ _ _ _ _ _ _ _ _)
  · rintro ⟨-, h2⟩
    rw [updatedEntry_team] at h2
    exact hab h2.symm

lemma findRanking_phase1_B (store : List Ranking) (lid aId bId winId : String)
    (sa sb : List Int) (ppw ppl now : Int) (hab : aId ≠ bId) :
    findRanking (updateRankingsPhase1 store lid aId bId winId sa sb ppw ppl now) lid bId =
      some (updatedEntry store lid bId winId sb sa ppw ppl now) := by
  rw [updateRankingsPhase1_eq store lid aId bId winId sa sb ppw ppl now hab]
  exact findRanking_save_same' _ _ _ _ (updatedEntry_league _ _ _ _ _ _ _ _ _)
    (updatedEntry_team _ _ _ _ _ _ _ _ _)

lemma keysOf_phase1_nodup (store : List Ranking) (lid aId bId winId : String)
    (sa sb : List Int) (ppw ppl now : Int) (hkeys : (keysOf store).Nodup) :
    (keysOf (updateRankingsPhase1 store lid aId bId winId sa sb ppw ppl now)).Nodup := by
  simp only [updateRankingsPhase1]
  exact keysOf_saveRanking_nodup _ _ (keysOf_saveRanking_nodup _ _ hkeys)

lemma keysOf_rankedTable_nodup (store2 : List Ranking) (lid : String)
    (h2 : (keysOf store2).Nodup) : (keysOf (rankedTable store2 lid)).Nodup := by
  unfold rankedTable leagueTable
  rw [assignRanks_keysOf]
  have hperm : List.Perm
      (keysOf ((store2.filter fun r => r.league == lid).mergeSort rankLE))
      (keysOf (store2.filter fun r => r.league == lid)) :=
    (List.mergeSort_perm _ _).map _
  rw [hperm.nodup_iff]
  exact ((List.filter_sublist store2).map _).nodup h2

lemma mem_rankedTable_league (store2 : List Ranking) (lid : String) (x : Ranking)
    (hx : x ∈ rankedTable store2 lid) : x.league = lid := by
  unfold rankedTable at hx
  rcases mem_assignRanks_elim 0 _ x hx with ⟨z, hz, k, rfl⟩
  have hz' : z ∈ store2.filter fun r => r.league == lid :=
    (List.mergeSort_perm _ _).subset hz
  have := (List.mem_filter.mp hz').2
  simpa using this

lemma getD_eq_getElem' (l : List Ranking) (n : Nat) (h : n < l.length) :
    l.getD n default = l[n] := by
  simp [List.getD_eq_getElem?_getD, List.getElem?_eq_getElem h]

/-! ### C3 : full-league rank recomputation -/

/-- C3: after a standings update, the full set of the league's entries is
reordered non-increasingly by points with ties broken by non-increasing
matchesWon; ranks `1..N` are assigned in that order; every entry of the
ranked table (including entries not involved in the match) is persisted
with its new rank; and every league entry appears in the ranked table. -/
theorem updateRankings_rank_recompute (store : List Ranking)
    (lid aId bId winId : String) (sa sb : List Int) (ppw ppl now : Int)
    (hkeys : (keysOf store).Nodup) :
    (∀ j, j < (rankedTable (updateRankingsPhase1 store lid aId bId winId sa sb ppw ppl now)
        lid).length →
      ((rankedTable (updateRankingsPhase1 store lid aId bId winId sa sb ppw ppl now)
        lid).getD j default).rank = (j : Int) + 1) ∧
    (∀ x ∈ rankedTable (updateRankingsPhase1 store lid aId bId winId sa sb ppw ppl now) lid,
      ∀ y ∈ rankedTable (updateRankingsPhase1 store lid aId bId winId sa sb ppw ppl now) lid,
      x.rank < y.rank →
        y.points < x.points ∨ (x.points = y.points ∧ y.matchesWon ≤ x.matchesWon)) ∧
    (∀ x ∈ rankedTable (updateRankingsPhase1 store lid aId bId winId sa sb ppw ppl now) lid,
      findRanking (updateRankings store lid aId bId winId sa sb ppw ppl now)
        x.league x.team = some x) ∧
    (∀ y ∈ updateRankingsPhase1 store lid aId bId winId sa sb ppw ppl now, y.league = lid →
      ∃ x ∈ rankedTable (updateRankingsPhase1 store lid aId bId winId sa sb ppw ppl now) lid,
        x.team = y.team) := by
  have hs2keys : (keysOf (updateRankingsPhase1 store lid aId bId winId sa sb ppw ppl
      now)).Nodup :=
    keysOf_phase1_nodup store lid aId bId winId sa sb ppw ppl now hkeys
  have hrlkeys : (keysOf (rankedTable (updateRankingsPhase1 store lid aId bId winId sa sb
      ppw ppl now) lid)).Nodup :=
    keysOf_rankedTable_nodup _ _ hs2keys
  refine ⟨?_, ?_, ?_, ?_⟩
  · intro j hj
    have hj' : j <
        (leagueTable (updateRankingsPhase1 store lid aId bId winId sa sb ppw ppl now)
          lid).length := by
      rw [← assignRanks_length 0]
      exact hj
    have := assignRanks_rank_getD 0 _ j hj'
    unfold rankedTable
    rw [this]
    simp
  · intro x hx y hy hrank
    have hpw : (rankedTable (updateRankingsPhase1 store lid aId bId winId sa sb ppw ppl now)
        lid).Pairwise (fun a b => rankLE a b = true) := by
      apply assignRanks_pairwise
      exact List.sorted_mergeSort rankLE_trans rankLE_total _
    rcases List.mem_iff_getElem.mp hx with ⟨i, hi, rfl⟩
    rcases List.mem_iff_getElem.mp hy with ⟨j, hj, rfl⟩
    have hi' : i <
        (leagueTable (updateRankingsPhase1 store lid aId bId winId sa sb ppw ppl now)
          lid).length := by
      rw [← assignRanks_length 0]
      exact hi
    have hj' : j <
        (leagueTable (updateRankingsPhase1 store lid aId bId winId sa sb ppw ppl now)
          lid).length := by
      rw [← assignRanks_length 0]
      exact hj
    have hri : ((rankedTable (updateRankingsPhase1 store lid aId bId winId sa sb ppw ppl
        now) lid).getD i default).rank = ((0 + i : Nat) : Int) + 1 :=
      assignRanks_rank_getD 0 _ i hi'
    have hrj : ((rankedTable (updateRankingsPhase1 store lid aId bId winId sa sb ppw ppl
        now) lid).getD j default).rank = ((0 + j : Nat) : Int) + 1 :=
      assignRanks_rank_getD 0 _ j hj'
    rw [getD_eq_getElem' _ i hi] at hri
    rw [getD_eq_getElem' _ j hj] at hrj
    rw [hri, hrj] at hrank
    have hij : i < j := by
      simp only [Nat.zero_add] at hrank
      omega
    have := List.pairwise_iff_getElem.mp hpw i j hi hj hij
    simpa only [rankLE, Bool.or_eq_true, Bool.and_eq_true, decide_eq_true_eq,
      beq_iff_eq] using this
  · intro x hx
    show findRanking
      ((rankedTable (updateRankingsPhase1 store lid aId bId winId sa sb ppw ppl now)
        lid).foldl saveRanking
        (updateRankingsPhase1 store lid aId bId winId sa sb ppw ppl now)) x.league x.team =
      some x
    exact findRanking_foldl_save_of_mem _ _ x hx
      fun y hy h1 h2 => eq_of_keysOf_nodup _ hrlkeys x hx y hy h1 h2
  · intro y hy hyl
    have hyf : y ∈ (updateRankingsPhase1 store lid aId bId winId sa sb ppw ppl now).filter
        fun r => r.league == lid :=
      List.mem_filter.mpr ⟨hy, by simp [hyl]⟩
    have hym : y ∈ leagueTable (updateRankingsPhase1 store lid aId bId winId sa sb ppw ppl
        now) lid :=
      ((List.mergeSort_perm _ _).mem_iff).mpr hyf
    rcases mem_assignRanks_of_mem 0 _ y hym with ⟨k, hk⟩
    exact ⟨{ y with rank := k }, hk, rfl⟩

/-! ### C2 : symmetric application of a match result -/

lemma updateWithMatchResult_fields (r : Ranking) (w : Bool)
    (sw sl gw gl ppw ppl now : Int) :
    (updateWithMatchResult r w sw sl gw gl ppw ppl now).matchesPlayed =
        r.matchesPlayed + 1 ∧
    (updateWithMatchResult r w sw sl gw gl ppw ppl now).matchesWon =
        r.matchesWon + (if w then 1 else 0) ∧
    (updateWithMatchResult r w sw sl gw gl ppw ppl now).matchesLost =
        r.matchesLost + (if w then 0 else 1) ∧
    (updateWithMatchResult r w sw sl gw gl ppw ppl now).points =
        r.points + (if w then ppw else ppl) ∧
    (updateWithMatchResult r w sw sl gw gl ppw ppl now).setsWon = r.setsWon + sw ∧
    (updateWithMatchResult r w sw sl gw gl ppw ppl now).setsLost = r.setsLost + sl ∧
    (updateWithMatchResult r w sw sl gw gl ppw ppl now).gamesWon = r.gamesWon + gw ∧
    (updateWithMatchResult r w sw sl gw gl ppw ppl now).gamesLost = r.gamesLost + gl := by
  cases w <;> simp [updateWithMatchResult]

/-- The rank-recompute phase persists, for each of the two updated teams,
an entry equal to its phase-1 entry except possibly in `rank`. -/
lemma findRanking_updateRankings_of_phase1 (store : List Ranking)
    (lid aId bId winId tid : String) (sa sb : List Int) (ppw ppl now : Int)
    (hkeys : (keysOf store).Nodup) (e : Ranking)
    (hfind : findRanking (updateRankingsPhase1 store lid aId bId winId sa sb ppw ppl now)
      lid tid = some e) (hel : e.league = lid) (het : e.team = tid) :
    ∃ k : Int,
      findRanking (updateRankings store lid aId bId winId sa sb ppw ppl now) lid tid =
        some { e with rank := k } := by
  have hs2keys : (keysOf (updateRankingsPhase1 store lid aId bId winId sa sb ppw ppl
      now)).Nodup :=
    keysOf_phase1_nodup store lid aId bId winId sa sb ppw ppl now hkeys
  have hrlkeys : (keysOf (rankedTable (updateRankingsPhase1 store lid aId bId winId sa sb
      ppw ppl now) lid)).Nodup :=
    keysOf_rankedTable_nodup _ _ hs2keys
  have hmem : e ∈ updateRankingsPhase1 store lid aId bId winId sa sb ppw ppl now :=
    List.mem_of_find?_eq_some hfind
  have hmemf : e ∈ (updateRankingsPhase1 store lid aId bId winId sa sb ppw ppl now).filter
      fun r => r.league == lid :=
    List.mem_filter.mpr ⟨hmem, by simp [hel]⟩
  have hmems : e ∈ leagueTable (updateRankingsPhase1 store lid aId bId winId sa sb ppw ppl
      now) lid :=
    ((List.mergeSort_perm _ _).mem_iff).mpr hmemf
  rcases mem_assignRanks_of_mem 0 _ e hmems with ⟨k, hk⟩
  refine ⟨k, ?_⟩
  show findRanking
      ((rankedTable (updateRankingsPhase1 store lid aId bId winId sa sb ppw ppl now)
        lid).foldl saveRanking
        (updateRankingsPhase1 store lid aId bId winId sa sb ppw ppl now)) lid tid =
      some { e with rank := k }
  have hfold : findRanking
      ((rankedTable (updateRankingsPhase1 store lid aId bId winId sa sb ppw ppl now)
        lid).foldl saveRanking
        (updateRankingsPhase1 store lid aId bId winId sa sb ppw ppl now))
      ({ e with rank := k } : Ranking).league ({ e with rank := k } : Ranking).team =
      some { e with rank := k } :=
    findRanking_foldl_save_of_mem _ _ _ hk
      fun y hy h1 h2 => eq_of_keysOf_nodup _ hrlkeys _ hk y hy h1 h2
  rw [hel, het] at hfold ⊢
  exact hfold

/-- C2: the standings update applies the same match data symmetrically to
both participants: each side's matchesPlayed goes up by one; the winner
gains a win and `pointsPerWin`, the loser a loss and `pointsPerLoss`;
each side gains its own set wins as setsWon and the opponent set wins as
setsLost, its own game total as gamesWon and the opponent game total as
gamesLost (entries are created zeroed when absent). -/
theorem updateRankings_symmetric (store : List Ranking)
    (lid aId bId winId : String) (sa sb : List Int) (ppw ppl now : Int)
    (hkeys : (keysOf store).Nodup) (hab : aId ≠ bId)
    (hlen : sa.length = sb.length) (hne : sa ≠ [])
    (hnotie : ∀ p ∈ sa.zip sb, p.1 ≠ p.2)
    (hmaj : setsWonBy sa sb ≠ setsWonBy sb sa)
    (hwid : winId = if setsWonBy sb sa < setsWonBy sa sb then aId else bId) :
    ∃ eA eB : Ranking,
      findRanking (updateRankings store lid aId bId winId sa sb ppw ppl now) lid aId =
        some eA ∧
      findRanking (updateRankings store lid aId bId winId sa sb ppw ppl now) lid bId =
        some eB ∧
      eA.matchesPlayed = (entryBefore store lid aId now).matchesPlayed + 1 ∧
      eB.matchesPlayed = (entryBefore store lid bId now).matchesPlayed + 1 ∧
      (winId = aId →
        eA.matchesWon = (entryBefore store lid aId now).matchesWon + 1 ∧
        eA.matchesLost = (entryBefore store lid aId now).matchesLost ∧
        eA.points = (entryBefore store lid aId now).points + ppw ∧
        eB.matchesWon = (entryBefore store lid bId now).matchesWon ∧
        eB.matchesLost = (entryBefore store lid bId now).matchesLost + 1 ∧
        eB.points = (entryBefore store lid bId now).points + ppl) ∧
      (winId = bId →
        eB.matchesWon = (entryBefore store lid bId now).matchesWon + 1 ∧
        eB.matchesLost = (entryBefore store lid bId now).matchesLost ∧
        eB.points = (entryBefore store lid bId now).points + ppw ∧
        eA.matchesWon = (entryBefore store lid aId now).matchesWon ∧
        eA.matchesLost = (entryBefore store lid aId now).matchesLost + 1 ∧
        eA.points = (entryBefore store lid aId now).points + ppl) ∧
      eA.setsWon = (entryBefore store lid aId now).setsWon + (setsWonBy sa sb : Int) ∧
      eA.setsLost = (entryBefore store lid aId now).setsLost + (setsWonBy sb sa : Int) ∧
      eB.setsWon = (entryBefore store lid bId now).setsWon + (setsWonBy sb sa : Int) ∧
      eB.setsLost = (entryBefore store lid bId now).setsLost + (setsWonBy sa sb : Int) ∧
      eA.gamesWon = (entryBefore store lid aId now).gamesWon + gamesWonBy sa ∧
      eA.gamesLost = (entryBefore store lid aId now).gamesLost + gamesWonBy sb ∧
      eB.gamesWon = (entryBefore store lid bId now).gamesWon + gamesWonBy sb ∧
      eB.gamesLost = (entryBefore store lid bId now).gamesLost + gamesWonBy sa := by
  rcases findRanking_updateRankings_of_phase1 store lid aId bId winId aId sa sb ppw ppl now
      hkeys _ (findRanking_phase1_A store lid aId bId winId sa sb ppw ppl now hab)
      (updatedEntry_league _ _ _ _ _ _ _ _ _) (updatedEntry_team _ _ _ _ _ _ _ _ _)
    with ⟨kA, hA⟩
  rcases findRanking_updateRankings_of_phase1 store lid aId bId winId bId sa sb ppw ppl now
      hkeys _ (findRanking_phase1_B store lid aId bId winId sa sb ppw ppl now hab)
      (updatedEntry_league _ _ _ _ _ _ _ _ _) (updatedEntry_team _ _ _ _ _ _ _ _ _)
    with ⟨kB, hB⟩
  refine ⟨_, _, hA, hB, ?_⟩
  have hfA := updateWithMatchResult_fields (entryBefore store lid aId now) (winId == aId)
    (setsWonBy sa sb : Int) (setsWonBy sb sa : Int) (gamesWonBy sa) (gamesWonBy sb)
    ppw ppl now
  have hfB := updateWithMatchResult_fields (entryBefore store lid bId now) (winId == bId)
    (setsWonBy sb sa : Int) (setsWonBy sa sb : Int) (gamesWonBy sb) (gamesWonBy sa)
    ppw ppl now
  obtain ⟨a1, a2, a3, a4, a5, a6, a7, a8⟩ := hfA
  obtain ⟨b1, b2, b3, b4, b5, b6, b7, b8⟩ := hfB
  refine ⟨a1, b1, ?_, ?_, a5, a6, b5, b6, a7, a8, b7, b8⟩
  · intro hwa
    have hba : (winId == aId) = true := beq_iff_eq.mpr hwa
    have hbb : (winId == bId) = false := by
      rw [hwa]
      simp [hab]
    have hifa : ∀ x y : Int, (if (winId == aId) = true then x else y) = x := by
      intro x y
      rw [hba]
      simp
    have hifb : ∀ x y : Int, (if (winId == bId) = true then x else y) = y := by
      intro x y
      rw [hbb]
      simp
    exact ⟨a2.trans (by rw [hifa]), a3.trans (by rw [hifa]; simp),
      a4.trans (by rw [hifa]), b2.trans (by rw [hifb]; simp),
      b3.trans (by rw [hifb]), b4.trans (by rw [hifb])⟩
  · intro hwb
    have hbb : (winId == bId) = true := beq_iff_eq.mpr hwb
    have hba : (winId == aId) = false := by
      rw [hwb]
      simp only [beq_eq_false_iff_ne, ne_eq]
      exact fun h => hab h.symm
    have hifa : ∀ x y : Int, (if (winId == aId) = true then x else y) = y := by
      intro x y
      rw [hba]
      simp
    have hifb : ∀ x y : Int, (if (winId == bId) = true then x else y) = x := by
      intro x y
      rw [hbb]
      simp
    exact ⟨b2.trans (by rw [hifb]), b3.trans (by rw [hifb]; simp),
      b4.trans (by rw [hifb]), a2.trans (by rw [hifa]; simp),
      a3.trans (by rw [hifa]), a4.trans (by rw [hifa])⟩

/-- A concrete three-team store used by witness instances: before the
match, points are `[6, 9, 6]` and matchesWon `[2, 2, 2]`; after team a
beats team b with `pointsPerWin = 3, pointsPerLoss = 0` the table holds
points `[9, 9, 6]` and matchesWon `[3, 2, 2]`. -/
def demoStore : List Ranking :=
  [{ league := "L", team := "a", rank := 2, matchesPlayed := 2, matchesWon := 2,
     matchesLost := 0, setsWon := 4, setsLost := 1, gamesWon := 24, gamesLost := 12,
     points := 6, lastUpdated := 0 },
   { league := "L", team := "b", rank := 1, matchesPlayed := 2, matchesWon := 2,
     matchesLost := 0, setsWon := 4, setsLost := 0, gamesWon := 24, gamesLost := 10,
     points := 9, lastUpdated := 0 },
   { league := "L", team := "c", rank := 3, matchesPlayed := 2, matchesWon := 2,
     matchesLost := 0, setsWon := 4, setsLost := 2, gamesWon := 24, gamesLost := 14,
     points := 6, lastUpdated := 0 }]

/-- Witness for C2 at the concrete match `[6,4,6]` vs `[3,6,2]`. -/
theorem updateRankings_symmetric_witness :
    (keysOf demoStore).Nodup ∧
    ∃ eA eB : Ranking,
      findRanking (updateRankings demoStore "L" "a" "b" "a" [6, 4, 6] [3, 6, 2] 3 0 5)
        "L" "a" = some eA ∧
      findRanking (updateRankings demoStore "L" "a" "b" "a" [6, 4, 6] [3, 6, 2] 3 0 5)
        "L" "b" = some eB ∧
      eA.matchesPlayed = (entryBefore demoStore "L" "a" 5).matchesPlayed + 1 ∧
      eB.matchesPlayed = (entryBefore demoStore "L" "b" 5).matchesPlayed + 1 ∧
      (("a" : String) = "a" →
        eA.matchesWon = (entryBefore demoStore "L" "a" 5).matchesWon + 1 ∧
        eA.matchesLost = (entryBefore demoStore "L" "a" 5).matchesLost ∧
        eA.points = (entryBefore demoStore "L" "a" 5).points + 3 ∧
        eB.matchesWon = (entryBefore demoStore "L" "b" 5).matchesWon ∧
        eB.matchesLost = (entryBefore demoStore "L" "b" 5).matchesLost + 1 ∧
        eB.points = (entryBefore demoStore "L" "b" 5).points + 0) ∧
      (("a" : String) = "b" →
        eB.matchesWon = (entryBefore demoStore "L" "b" 5).matchesWon + 1 ∧
        eB.matchesLost = (entryBefore demoStore "L" "b" 5).matchesLost ∧
        eB.points = (entryBefore demoStore "L" "b" 5).points + 3 ∧
        eA.matchesWon = (entryBefore demoStore "L" "a" 5).matchesWon ∧
        eA.matchesLost = (entryBefore demoStore "L" "a" 5).matchesLost + 1 ∧
        eA.points = (entryBefore demoStore "L" "a" 5).points + 0) ∧
      eA.setsWon = (entryBefore demoStore "L" "a" 5).setsWon +
        (setsWonBy [6, 4, 6] [3, 6, 2] : Int) ∧
      eA.setsLost = (entryBefore demoStore "L" "a" 5).setsLost +
        (setsWonBy [3, 6, 2] [6, 4, 6] : Int) ∧
      eB.setsWon = (entryBefore demoStore "L" "b" 5).setsWon +
        (setsWonBy [3, 6, 2] [6, 4, 6] : Int) ∧
      eB.setsLost = (entryBefore demoStore "L" "b" 5).setsLost +
        (setsWonBy [6, 4, 6] [3, 6, 2] : Int) ∧
      eA.gamesWon = (entryBefore demoStore "L" "a" 5).gamesWon + gamesWonBy [6, 4, 6] ∧
      eA.gamesLost = (entryBefore demoStore "L" "a" 5).gamesLost + gamesWonBy [3, 6, 2] ∧
      eB.gamesWon = (entryBefore demoStore "L" "b" 5).gamesWon + gamesWonBy [3, 6, 2] ∧
      eB.gamesLost = (entryBefore demoStore "L" "b" 5).gamesLost + gamesWonBy [6, 4, 6] := by
  refine ⟨by decide, ?_⟩
  exact updateRankings_symmetric demoStore "L" "a" "b" "a" [6, 4, 6] [3, 6, 2] 3 0 5
    (by decide) (by decide) (by decide) (by decide) (by decide) (by decide) (by decide)

unseal List.merge List.mergeSort in
/-- Witness for C3 on `demoStore` : post-match points `[9, 9, 6]` and
matchesWon `[3, 2, 2]` receive ranks `1, 2, 3` in that order. -/
theorem updateRankings_rank_recompute_witness :
    (keysOf demoStore).Nodup ∧
    (∀ x ∈ rankedTable (updateRankingsPhase1 demoStore "L" "a" "b" "a" [6, 4, 6] [3, 6, 2]
        3 0 5) "L",
      findRanking (updateRankings demoStore "L" "a" "b" "a" [6, 4, 6] [3, 6, 2] 3 0 5)
        x.league x.team = some x) ∧
    (rankedTable (updateRankingsPhase1 demoStore "L" "a" "b" "a" [6, 4, 6] [3, 6, 2]
        3 0 5) "L").map (fun r => (r.team, r.rank, r.points, r.matchesWon)) =
      [("a", 1, 9, 3), ("b", 2, 9, 2), ("c", 3, 6, 2)] := by
  refine ⟨by decide, (updateRankings_rank_recompute demoStore "L" "a" "b" "a"
    [6, 4, 6] [3, 6, 2] 3 0 5 (by decide)).2.2.1, ?_⟩
  decide

/-! ### Structure of the generated fixture list

The generator loop is re-expressed as: collect the (team1, team2) pairs
of all rounds, drop the pairs involving the bye placeholder, and turn
the k-th remaining pair into a fixture dated `start + k` spacing days. -/

/-- The (team1, team2) pairs read by the inner loop of one round. -/
def roundPairs (teams : List String) : List (String × String) :=
  (List.range (teams.length / 2)).map fun i =>
    (teams.getD i "", teams.getD (teams.length - 1 - i) "")

/-- The pairs of all rounds, in generation order. -/
def allRoundPairs : Nat → List String → List (String × String)
  | 0, _ => []
  | r + 1, teams => roundPairs teams ++ allRoundPairs r (rotateTeams teams)

/-- The skip condition of the inner loop. -/
def nonDummy (ab : String × String) : Bool :=
  ab.1 != "dummy" && ab.2 != "dummy"

/-- Fixtures from a pair list, numbering matches from `k`. -/
def emitFrom (lid : String) (venue : Option String) (start db : Int) :
    Nat → List (String × String) → List Fixture
  | _, [] => []
  | k, ab :: ps =>
      { league := lid, teamA := ab.1, teamB := ab.2,
        scheduledDate := start + (k : Int) * db * msPerDay,
        location := venue, status := "scheduled" } ::
        emitFrom lid venue start db (k + 1) ps

lemma emitFrom_append (lid : String) (venue : Option String) (start db : Int)
    (k : Nat) (xs ys : List (String × String)) :
    emitFrom lid venue start db k (xs ++ ys) =
      emitFrom lid venue start db k xs ++
        emitFrom lid venue start db (k + xs.length) ys := by
  induction xs generalizing k with
  | nil => simp [emitFrom]
  | cons ab xs ih =>
    simp only [List.cons_append, emitFrom, List.length_cons, List.append_eq]
    rw [ih (k + 1), show k + 1 + xs.length = k + (xs.length + 1) from by omega]

lemma emitFrom_length (lid : String) (venue : Option String) (start db : Int)
    (k : Nat) (ps : List (String × String)) :
    (emitFrom lid venue start db k ps).length = ps.length := by
  induction ps generalizing k with
  | nil => rfl
  | cons ab ps ih => simp [emitFrom, ih]

lemma emitStep_eq (lid : String) (venue : Option String) (start db : Int)
    (teams : List String) (acc : List Fixture × Nat) (i : Nat) :
    emitStep lid venue start db teams acc i =
      if nonDummy (teams.getD i "", teams.getD (teams.length - 1 - i) "") then
        (acc.1 ++ [{ league := lid, teamA := teams.getD i "",
                     teamB := teams.getD (teams.length - 1 - i) "",
                     scheduledDate := start + (acc.2 : Int) * db * msPerDay,
                     location := venue, status := "scheduled" }], acc.2 + 1)
      else acc := rfl

lemma foldl_emitStep_eq (lid : String) (venue : Option String) (start db : Int)
    (teams : List String) (idx : List Nat) (fs : List Fixture) (k : Nat) :
    idx.foldl (emitStep lid venue start db teams) (fs, k) =
      (fs ++ emitFrom lid venue start db k
          ((idx.map fun i =>
            ((teams.getD i "", teams.getD (teams.length - 1 - i) "") : String × String))
            |>.filter nonDummy),
        k + ((idx.map fun i =>
            ((teams.getD i "", teams.getD (teams.length - 1 - i) "") : String × String))
            |>.filter nonDummy).length) := by
  induction idx generalizing fs k with
  | nil => simp [emitFrom]
  | cons i idx ih =>
    rw [List.foldl_cons, emitStep_eq, List.map_cons]
    by_cases hd : nonDummy (teams.getD i "", teams.getD (teams.length - 1 - i) "") = true
    · rw [if_pos hd, List.filter_cons_of_pos hd]
      rw [ih (fs ++ [_]) (k + 1)]
      simp only [emitFrom, List.append_assoc, List.singleton_append, List.length_cons,
        Prod.mk.injEq]
      exact ⟨trivial, by omega⟩
    · rw [if_neg hd, List.filter_cons_of_neg hd]
      exact ih fs k

lemma roundStep_eq (lid : String) (venue : Option String) (start db : Int)
    (teams : List String) (fs : List Fixture) (k : Nat) :
    roundStep lid venue start db teams (fs, k) =
      (fs ++ emitFrom lid venue start db k ((roundPairs teams).filter nonDummy),
        k + ((roundPairs teams).filter nonDummy).length) := by
  unfold roundStep roundPairs
  exact foldl_emitStep_eq lid venue start db teams (List.range (teams.length / 2)) fs k

lemma genRounds_eq (lid : String) (venue : Option String) (start db : Int)
    (R : Nat) (teams : List String) (fs : List Fixture) (k : Nat) :
    genRounds lid venue start db R teams (fs, k) =
      (fs ++ emitFrom lid venue start db k ((allRoundPairs R teams).filter nonDummy),
        k + ((allRoundPairs R teams).filter nonDummy).length) := by
  induction R generalizing teams fs k with
  | zero => simp [genRounds, allRoundPairs, emitFrom]
  | succ r ih =>
    simp only [genRounds]
    rw [roundStep_eq, ih]
    simp only [allRoundPairs, List.filter_append, emitFrom_append, List.length_append,
      List.append_assoc, Prod.mk.injEq]
    exact ⟨trivial, by omega⟩

/-- On success the generator returns exactly the emitted fixtures of the
dummy-filtered round pairs. -/
lemma generateRoundRobinSchedule_ok_eq (lid : String) (ids : List String)
    (s e : Int) (v : Option String)
    (h2 : ¬ ids.length < 2)
    (hw : ¬ totalDaysOf s e < (totalMatchesOf ids.length : Int)) :
    generateRoundRobinSchedule lid ids s e v =
      .ok (emitFrom lid v s ((totalDaysOf s e).fdiv (totalMatchesOf ids.length : Int)) 0
        ((allRoundPairs ((paddedTeams ids).length - 1) (paddedTeams ids)).filter
          nonDummy)) := by
  unfold generateRoundRobinSchedule
  rw [if_neg h2, if_neg hw]
  show Except.ok (genRounds lid v s
      ((totalDaysOf s e).fdiv (totalMatchesOf ids.length : Int))
      ((paddedTeams ids).length - 1) (paddedTeams ids) ([], 0)).1 = _
  rw [genRounds_eq]
  simp

lemma emitFrom_getD_scheduledDate (lid : String) (venue : Option String)
    (start db : Int) (ps : List (String × String)) (k j : Nat) (hj : j < ps.length) :
    ((emitFrom lid venue start db k ps).getD j default).scheduledDate =
      start + ((k + j : Nat) : Int) * db * msPerDay := by
  induction ps generalizing k j with
  | nil => simp at hj
  | cons ab ps ih =>
    cases j with
    | zero => simp [emitFrom]
    | succ j' =>
      have hj' : j' < ps.length := by simpa using hj
      simp only [emitFrom, List.getD_cons_succ]
      rw [ih (k + 1) j' hj', show k + 1 + j' = k + (j' + 1) from by omega]

/-! ### C6 : fixture dates -/

/-- C6: on success, the k-th returned fixture is dated
`startDate + k * floor(totalDays / totalMatches)` days, so the dates are
monotonically non-decreasing in the returned (generation) order. -/
theorem generateRoundRobinSchedule_dates (lid : String) (ids : List String)
    (s e : Int) (v : Option String) (fs : List Fixture)
    (h : generateRoundRobinSchedule lid ids s e v = .ok fs) :
    (∀ k, k < fs.length →
      (fs.getD k default).scheduledDate =
        s + (k : Int) * ((totalDaysOf s e).fdiv (totalMatchesOf ids.length : Int)) *
          msPerDay) ∧
    (∀ j k, j ≤ k → k < fs.length →
      (fs.getD j default).scheduledDate ≤ (fs.getD k default).scheduledDate) := by
  have h2 : ¬ ids.length < 2 := by
    intro hlt
    unfold generateRoundRobinSchedule at h
    rw [if_pos hlt] at h
    exact Except.noConfusion h
  have hw : ¬ totalDaysOf s e < (totalMatchesOf ids.length : Int) := by
    intro hlt
    unfold generateRoundRobinSchedule at h
    rw [if_neg h2, if_pos hlt] at h
    exact Except.noConfusion h
  have hfs : fs = emitFrom lid v s
      ((totalDaysOf s e).fdiv (totalMatchesOf ids.length : Int)) 0
      ((allRoundPairs ((paddedTeams ids).length - 1) (paddedTeams ids)).filter
        nonDummy) := by
    have heq := generateRoundRobinSchedule_ok_eq lid ids s e v h2 hw
    rw [h] at heq
    exact Except.ok.inj heq
  have hdb : 0 ≤ (totalDaysOf s e).fdiv (totalMatchesOf ids.length : Int) := by
    refine Int.fdiv_nonneg ?_ (by positivity)
    have : ((totalMatchesOf ids.length : Nat) : Int) ≤ totalDaysOf s e := le_of_not_lt hw
    have h0 : (0 : Int) ≤ ((totalMatchesOf ids.length : Nat) : Int) := by positivity
    omega
  have hdate : ∀ k, k < fs.length →
      (fs.getD k default).scheduledDate =
        s + (k : Int) * ((totalDaysOf s e).fdiv (totalMatchesOf ids.length : Int)) *
          msPerDay := by
    intro k hk
    rw [hfs] at hk ⊢
    rw [emitFrom_length] at hk
    have := emitFrom_getD_scheduledDate lid v s
      ((totalDaysOf s e).fdiv (totalMatchesOf ids.length : Int)) _ 0 k hk
    rw [this]
    norm_num
  refine ⟨hdate, ?_⟩
  intro j k hjk hk
  have hj : j < fs.length := lt_of_le_of_lt hjk hk
  rw [hdate j hj, hdate k hk]
  have hms : (0 : Int) ≤ msPerDay := by norm_num [msPerDay]
  have hcast : (j : Int) ≤ (k : Int) := by exact_mod_cast hjk
  have h1 : (j : Int) * ((totalDaysOf s e).fdiv (totalMatchesOf ids.length : Int)) ≤
      (k : Int) * ((totalDaysOf s e).fdiv (totalMatchesOf ids.length : Int)) :=
    mul_le_mul_of_nonneg_right hcast hdb
  exact add_le_add_left (mul_le_mul_of_nonneg_right h1 hms) s

/-- Witness for C6 on a concrete successful generation. -/
theorem generateRoundRobinSchedule_dates_witness :
    generateRoundRobinSchedule "L" ["a", "b", "c", "d"] 0 (12 * msPerDay) none =
      .ok (emitFrom "L" none 0
        ((totalDaysOf 0 (12 * msPerDay)).fdiv (totalMatchesOf 4 : Int)) 0
        ((allRoundPairs ((paddedTeams ["a", "b", "c", "d"]).length - 1)
          (paddedTeams ["a", "b", "c", "d"])).filter nonDummy)) ∧
    (∀ j k, j ≤ k →
      k < (emitFrom "L" none 0
        ((totalDaysOf 0 (12 * msPerDay)).fdiv (totalMatchesOf 4 : Int)) 0
        ((allRoundPairs ((paddedTeams ["a", "b", "c", "d"]).length - 1)
          (paddedTeams ["a", "b", "c", "d"])).filter nonDummy)).length →
      ((emitFrom "L" none 0
        ((totalDaysOf 0 (12 * msPerDay)).fdiv (totalMatchesOf 4 : Int)) 0
        ((allRoundPairs ((paddedTeams ["a", "b", "c", "d"]).length - 1)
          (paddedTeams ["a", "b", "c", "d"])).filter nonDummy)).getD j
            default).scheduledDate ≤
      ((emitFrom "L" none 0
        ((totalDaysOf 0 (12 * msPerDay)).fdiv (totalMatchesOf 4 : Int)) 0
        ((allRoundPairs ((paddedTeams ["a", "b", "c", "d"]).length - 1)
          (paddedTeams ["a", "b", "c", "d"])).filter nonDummy)).getD k
            default).scheduledDate) := by
  have hok : generateRoundRobinSchedule "L" ["a", "b", "c", "d"] 0 (12 * msPerDay) none =
      .ok (emitFrom "L" none 0
        ((totalDaysOf 0 (12 * msPerDay)).fdiv (totalMatchesOf 4 : Int)) 0
        ((allRoundPairs ((paddedTeams ["a", "b", "c", "d"]).length - 1)
          (paddedTeams ["a", "b", "c", "d"])).filter nonDummy)) := by
    exact generateRoundRobinSchedule_ok_eq "L" ["a", "b", "c", "d"] 0 (12 * msPerDay) none
      (by decide) (by decide)
  exact ⟨hok, (generateRoundRobinSchedule_dates "L" ["a", "b", "c", "d"] 0 (12 * msPerDay)
    none _ hok).2⟩

/-! ### Counting helpers -/

lemma getD_str_eq_getElem (l : List String) (n : Nat) (h : n < l.length) :
    l.getD n "" = l[n] := by
  simp [List.getD_eq_getElem?_getD, List.getElem?_eq_getElem h]

lemma getD_str_mem (l : List String) (n : Nat) (h : n < l.length) :
    l.getD n "" ∈ l := by
  rw [getD_str_eq_getElem l n h]
  exact List.getElem_mem h

lemma countP_range_eq_zero (c : Nat) (q : Nat → Bool)
    (h : ∀ i, i < c → q i = false) : (List.range c).countP q = 0 := by
  induction c with
  | zero => rfl
  | succ c ih =>
    rw [List.range_succ, List.countP_append]
    rw [ih fun i hi => h i (by omega)]
    simp [h c (by omega)]

lemma countP_range_eq_one (c i₀ : Nat) (q : Nat → Bool) (h₀ : i₀ < c)
    (hq : q i₀ = true) (huniq : ∀ i, i < c → q i = true → i = i₀) :
    (List.range c).countP q = 1 := by
  induction c with
  | zero => omega
  | succ c ih =>
    rw [List.range_succ, List.countP_append]
    by_cases hc : i₀ = c
    · have hz : (List.range c).countP q = 0 := by
        apply countP_range_eq_zero
        intro i hi
        cases hb : q i with
        | false => rfl
        | true => exact absurd (huniq i (by omega) hb) (by omega)
      rw [hz, ← hc]
      simp [hq]
    · have hlt : i₀ < c := by omega
      rw [ih hlt fun i hi hqi => huniq i (by omega) hqi]
      have hqc : q c = false := by
        cases hb : q c with
        | false => rfl
        | true => exact absurd (huniq c (by omega) hb) fun h => hc h.symm
      simp [hqc]

lemma sum_map_range_eq_one (k r₀ : Nat) (f : Nat → Nat) (h₀ : r₀ < k)
    (h1 : f r₀ = 1) (h0 : ∀ r, r < k → r ≠ r₀ → f r = 0) :
    ((List.range k).map f).sum = 1 := by
  induction k with
  | zero => omega
  | succ k ih =>
    rw [List.range_succ, List.map_append, List.sum_append]
    by_cases hc : r₀ = k
    · have hz : ((List.range k).map f).sum = 0 := by
        rw [List.sum_eq_zero]
        intro n hn
        rcases List.mem_map.mp hn with ⟨r, hr, rfl⟩
        have hrlt := List.mem_range.mp hr
        exact h0 r (by omega) (by omega)
      rw [hz, ← hc]
      simp [h1]
    · have hlt : r₀ < k := by omega
      rw [ih hlt fun r hr hrne => h0 r (by omega) hrne]
      have hfk : f k = 0 := h0 k (by omega) fun h => hc h.symm
      simp [hfk]

lemma sum_map_range_const_one (k : Nat) (f : Nat → Nat)
    (h : ∀ r, r < k → f r = 1) : ((List.range k).map f).sum = k := by
  induction k with
  | zero => rfl
  | succ k ih =>
    rw [List.range_succ, List.map_append, List.sum_append]
    rw [ih fun r hr => h r (by omega)]
    simp [h k (by omega)]

/-! ### Rotation facts -/

lemma rotate_pred_eq (t : List String) (ht : t ≠ []) :
    t.rotate (t.length - 1) = t.getLast ht :: t.dropLast := by
  have hlt : t.length - 1 < t.length := by
    have : t.length ≠ 0 := fun hc => ht (List.length_eq_zero.mp hc)
    omega
  rw [List.rotate_eq_drop_append_take (by omega : t.length - 1 ≤ t.length)]
  have hdrop : t.drop (t.length - 1) = [t.getLast ht] := by
    rw [List.drop_eq_getElem_cons hlt,
      show t.length - 1 + 1 = t.length from by omega, List.drop_length,
      List.getLast_eq_getElem]
  rw [hdrop, ← List.dropLast_eq_take]
  rfl

lemma rotateTeams_cons (x : String) (t : List String) (ht : t ≠ []) :
    rotateTeams (x :: t) = x :: t.rotate (t.length - 1) := by
  have h1 : (x :: t).getLast? = some (t.getLast ht) := by
    rw [List.getLast?_eq_getLast (x :: t) (by simp), List.getLast_cons ht]
  have h2 : (x :: t).dropLast = x :: t.dropLast := List.dropLast_cons_of_ne_nil ht
  unfold rotateTeams
  rw [h1, h2, rotate_pred_eq t ht]

lemma rotateTeams_perm (l : List String) : List.Perm (rotateTeams l) l := by
  cases l with
  | nil => exact List.Perm.refl _
  | cons x t =>
    cases t with
    | nil => exact List.Perm.refl _
    | cons a t' =>
      rw [rotateTeams_cons x (a :: t') (by simp)]
      exact List.Perm.cons x (List.rotate_perm _ _)

lemma rotateTeams_length (l : List String) : (rotateTeams l).length = l.length :=
  (rotateTeams_perm l).length_eq

lemma rotateTeams_iterate (x : String) (t : List String) (ht : t ≠ []) (r : Nat) :
    rotateTeams^[r] (x :: t) = x :: t.rotate (r * (t.length - 1)) := by
  induction r with
  | zero => simp
  | succ r ih =>
    rw [Function.iterate_succ_apply', ih]
    have htr : t.rotate (r * (t.length - 1)) ≠ [] := by
      intro hcon
      apply ht
      have hlen := congrArg List.length hcon
      rw [List.length_rotate] at hlen
      exact List.length_eq_zero.mp hlen
    rw [rotateTeams_cons x _ htr, List.length_rotate, List.rotate_rotate,
      show r * (t.length - 1) + (t.length - 1) = (r + 1) * (t.length - 1) from by
        rw [Nat.succ_mul]]

/-! ### Facts about the pair list of all rounds -/

lemma roundPairs_length (teams : List String) :
    (roundPairs teams).length = teams.length / 2 := by
  simp [roundPairs]

lemma countP_allRoundPairs (P : String × String → Bool) (k : Nat) :
    ∀ teams : List String,
      (allRoundPairs k teams).countP P =
        ((List.range k).map fun r =>
          (roundPairs (rotateTeams^[r] teams)).countP P).sum := by
  induction k with
  | zero => intro teams; rfl
  | succ k ih =>
    intro teams
    rw [show allRoundPairs (k + 1) teams =
      roundPairs teams ++ allRoundPairs k (rotateTeams teams) from rfl]
    rw [List.countP_append, ih (rotateTeams teams)]
    rw [List.range_succ_eq_map, List.map_cons, List.sum_cons, List.map_map]
    refine congrArg₂ (· + ·) (by simp) ?_
    refine congrArg List.sum (List.map_congr_left fun r hr => ?_)
    simp only [Function.comp]
    rw [← Function.iterate_succ_apply]

lemma length_allRoundPairs (k : Nat) :
    ∀ teams : List String,
      (allRoundPairs k teams).length = k * (teams.length / 2) := by
  induction k with
  | zero => intro teams; simp [allRoundPairs]
  | succ k ih =>
    intro teams
    rw [show allRoundPairs (k + 1) teams =
      roundPairs teams ++ allRoundPairs k (rotateTeams teams) from rfl]
    rw [List.length_append, roundPairs_length, ih (rotateTeams teams),
      rotateTeams_length, Nat.succ_mul, Nat.add_comm]

lemma mem_roundPairs (teams : List String) (ab : String × String)
    (hab : ab ∈ roundPairs teams) (hnd : teams.Nodup)
    (heven : teams.length % 2 = 0) :
    ab.1 ∈ teams ∧ ab.2 ∈ teams ∧ ab.1 ≠ ab.2 := by
  unfold roundPairs at hab
  rcases List.mem_map.mp hab with ⟨i, hir, rfl⟩
  have hi : i < teams.length / 2 := List.mem_range.mp hir
  have hi1 : i < teams.length := by omega
  have hi2 : teams.length - 1 - i < teams.length := by omega
  refine ⟨getD_str_mem _ _ hi1, getD_str_mem _ _ hi2, ?_⟩
  intro hcon
  rw [getD_str_eq_getElem _ _ hi1, getD_str_eq_getElem _ _ hi2] at hcon
  have hidx : i = teams.length - 1 - i := hnd.getElem_inj_iff.mp hcon
  omega

lemma mem_allRoundPairs (k : Nat) :
    ∀ (teams : List String) (ab : String × String),
      ab ∈ allRoundPairs k teams → teams.Nodup → teams.length % 2 = 0 →
      ab.1 ∈ teams ∧ ab.2 ∈ teams ∧ ab.1 ≠ ab.2 := by
  induction k with
  | zero => intro teams ab hab; simp [allRoundPairs] at hab
  | succ k ih =>
    intro teams ab hab hnd heven
    rw [show allRoundPairs (k + 1) teams =
      roundPairs teams ++ allRoundPairs k (rotateTeams teams) from rfl] at hab
    rcases List.mem_append.mp hab with hmem | hmem
    · exact mem_roundPairs teams ab hmem hnd heven
    · have hperm := rotateTeams_perm teams
      have := ih (rotateTeams teams) ab hmem (hperm.nodup_iff.mpr hnd)
        (by rw [rotateTeams_length]; exact heven)
      exact ⟨hperm.subset this.1, hperm.subset this.2.1, this.2.2⟩

/-! ### Modular arithmetic helpers for the circle method -/

lemma natCast_mod_zmod (a M : Nat) : ((a % M : Nat) : ZMod M) = (a : ZMod M) := by
  conv_rhs => rw [← Nat.div_add_mod a M]
  push_cast
  simp

lemma mod_eq_iff_cast (M : Nat) [NeZero M] (X η : Nat) (hη : η < M) :
    X % M = η ↔ (X : ZMod M) = (η : ZMod M) := by
  constructor
  · intro h
    rw [← natCast_mod_zmod X M, h]
  · intro h
    have hval := congrArg ZMod.val h
    rw [ZMod.val_natCast, ZMod.val_natCast_of_lt hη] at hval
    exact hval

lemma exists_zmod_half (M : Nat) (hM : Odd M) : ∃ e : ZMod M, 2 * e = 1 := by
  have hcop : Nat.Coprime 2 M := by
    rw [Nat.Prime.coprime_iff_not_dvd Nat.prime_two]
    intro hdvd
    rcases hM with ⟨m2, hm2⟩
    rcases hdvd with ⟨d, hd⟩
    omega
  refine ⟨((ZMod.unitOfCoprime 2 hcop)⁻¹ : (ZMod M)ˣ), ?_⟩
  have h1 : ((ZMod.unitOfCoprime 2 hcop : (ZMod M)ˣ) : ZMod M) = 2 :=
    ZMod.coe_unitOfCoprime 2 hcop
  have h2 := (ZMod.unitOfCoprime 2 hcop).mul_inv
  rw [h1] at h2
  exact_mod_cast h2

lemma zmod_two_mul_inj (M : Nat) (e : ZMod M) (he : 2 * e = 1) (a b : ZMod M)
    (h : 2 * a = 2 * b) : a = b := by
  calc a = (2 * e) * a := by rw [he, one_mul]
    _ = e * (2 * a) := by ring
    _ = e * (2 * b) := by rw [h]
    _ = (2 * e) * b := by ring
    _ = b := by rw [he, one_mul]

lemma getD_str_inj (t : List String) (hnd : t.Nodup) (a b : Nat)
    (ha : a < t.length) (hb : b < t.length)
    (h : t.getD a "" = t.getD b "") : a = b := by
  rw [getD_str_eq_getElem _ _ ha, getD_str_eq_getElem _ _ hb] at h
  exact hnd.getElem_inj_iff.mp h

lemma getD_rotate (t : List String) (c j : Nat) (hj : j < t.length) :
    (t.rotate c).getD j "" = t.getD ((j + c) % t.length) "" := by
  have hj' : j < (t.rotate c).length := by
    rw [List.length_rotate]
    exact hj
  rw [getD_str_eq_getElem _ _ hj',
    getD_str_eq_getElem _ _ (Nat.mod_lt _ (by omega))]
  exact List.getElem_rotate t c j hj'

/-- The Nat-level form of the head-slot partner index: the element paired
with the fixed first team in round `r` sits at tail index `M - 1 - r`. -/
lemma head_partner_mod (M r : Nat) (hM : 1 ≤ M) (hr : r < M) :
    (M - 1 + r * (M - 1)) % M = M - 1 - r := by
  obtain ⟨m, rfl⟩ : ∃ m, M = m + 1 := ⟨M - 1, by omega⟩
  simp only [Nat.add_sub_cancel]
  have key : m + r * m = r * (m + 1) + (m - r) := by
    have h1 : r * (m + 1) = r * m + r := Nat.mul_succ r m
    omega
  rw [key, Nat.add_comm (r * (m + 1)) (m - r), Nat.add_mul_mod_self_right,
    Nat.mod_eq_of_lt (by omega)]

lemma pairMatch_eval (p q a b : String) :
    pairMatch p q (a, b) = true ↔ (a = p ∧ b = q) ∨ (a = q ∧ b = p) := by
  simp [pairMatch]

/-- In any round, the fixed first team meets exactly the tail element at
rotated index `M - 1`; hence a pair `(x, t[w])` occurs in the round with
offset `c` precisely when `(M - 1 + c) % M = w`, and then exactly once. -/
lemma roundPairs_rotate_countP_head (x : String) (t : List String) (c : Nat)
    (hnd : (x :: t).Nodup) (hM1 : 1 ≤ t.length) (w : Nat) (hw : w < t.length) :
    (roundPairs (x :: t.rotate c)).countP (pairMatch x (t.getD w "")) =
      if (t.length - 1 + c) % t.length = w then 1 else 0 := by
  obtain ⟨hxnot, hndt⟩ := List.nodup_cons.mp hnd
  have hq_mem : t.getD w "" ∈ t := getD_str_mem t w hw
  have hxq : x ≠ t.getD w "" := fun h => hxnot (h ▸ hq_mem)
  unfold roundPairs
  rw [List.countP_map]
  simp only [List.length_cons, List.length_rotate]
  -- slot 0 second component
  have hslot0 : (x :: t.rotate c).getD (t.length + 1 - 1 - 0) "" =
      t.getD ((t.length - 1 + c) % t.length) "" := by
    rw [show t.length + 1 - 1 - 0 = (t.length - 1) + 1 from by omega]
    rw [List.getD_cons_succ]
    exact getD_rotate t c (t.length - 1) (by omega)
  -- any slot i+1 has both components in the tail
  have hslot_tail : ∀ i : Nat, i + 1 < (t.length + 1) / 2 →
      pairMatch x (t.getD w "") ((x :: t.rotate c).getD (i + 1) "",
        (x :: t.rotate c).getD (t.length + 1 - 1 - (i + 1)) "") = false := by
    intro i hi
    have hi' : i < t.length := by omega
    have hBpos : 1 ≤ t.length - 1 - i := by omega
    have h1 : (x :: t.rotate c).getD (i + 1) "" = (t.rotate c).getD i "" :=
      List.getD_cons_succ
    have h2 : (x :: t.rotate c).getD (t.length + 1 - 1 - (i + 1)) "" =
        (t.rotate c).getD (t.length - 1 - i - 1) "" := by
      rw [show t.length + 1 - 1 - (i + 1) = (t.length - 1 - i - 1) + 1 from by omega]
      exact List.getD_cons_succ
    have hmem1 : (t.rotate c).getD i "" ∈ t := by
      rw [getD_rotate t c i hi']
      exact getD_str_mem t _ (Nat.mod_lt _ (by omega))
    have hmem2 : (t.rotate c).getD (t.length - 1 - i - 1) "" ∈ t := by
      rw [getD_rotate t c _ (by omega : t.length - 1 - i - 1 < t.length)]
      exact getD_str_mem t _ (Nat.mod_lt _ (by omega))
    rw [h1, h2]
    rw [Bool.eq_false_iff]
    intro hmatch
    rcases (pairMatch_eval _ _ _ _).mp hmatch with ⟨ha, -⟩ | ⟨-, hb⟩
    · exact hxnot (ha ▸ hmem1)
    · exact hxnot (hb ▸ hmem2)
  by_cases hcond : (t.length - 1 + c) % t.length = w
  · rw [if_pos hcond]
    refine countP_range_eq_one _ 0 _ (by omega) ?_ ?_
    · show pairMatch x (t.getD w "") ((x :: t.rotate c).getD 0 "",
        (x :: t.rotate c).getD (t.length + 1 - 1 - 0) "") = true
      rw [hslot0, hcond]
      exact (pairMatch_eval _ _ _ _).mpr (Or.inl ⟨rfl, rfl⟩)
    · intro i hi hqi
      by_contra hne0
      obtain ⟨i', rfl⟩ : ∃ i', i = i' + 1 := ⟨i - 1, by omega⟩
      simp only [Function.comp] at hqi
      rw [hslot_tail i' (by omega)] at hqi
      exact Bool.noConfusion hqi
  · rw [if_neg hcond]
    refine countP_range_eq_zero _ _ ?_
    intro i hi
    cases i with
    | zero =>
      show pairMatch x (t.getD w "") ((x :: t.rotate c).getD 0 "",
        (x :: t.rotate c).getD (t.length + 1 - 1 - 0) "") = false
      rw [hslot0, Bool.eq_false_iff]
      intro hmatch
      rcases (pairMatch_eval _ _ _ _).mp hmatch with ⟨-, hb⟩ | ⟨ha, -⟩
      · exact hcond (getD_str_inj t hndt _ _ (Nat.mod_lt _ (by omega)) hw hb)
      · exact hxq ha
    | succ i' => exact hslot_tail i' (by omega)

/-- In a round with rotation offset `c`, a pair of two distinct tail
elements occurs exactly once when the rotated index sum matches the
round invariant `η + ζ + 2 = 2c (mod M)` and never otherwise. -/
lemma roundPairs_rotate_countP_tail (x : String) (t : List String) (c : Nat)
    (hnd : (x :: t).Nodup) (hModd : Odd t.length)
    (η ζ : Nat) (hη : η < t.length) (hζ : ζ < t.length) (hne : η ≠ ζ) :
    (roundPairs (x :: t.rotate c)).countP
        (pairMatch (t.getD η "") (t.getD ζ "")) =
      if ((η : ZMod t.length) + (ζ : ZMod t.length) + 2 = 2 * (c : ZMod t.length))
      then 1 else 0 := by
  obtain ⟨hxnot, hndt⟩ := List.nodup_cons.mp hnd
  obtain ⟨m, hm⟩ := hModd
  have hM3 : 3 ≤ t.length := by omega
  haveI : NeZero t.length := ⟨by omega⟩
  obtain ⟨e, he⟩ := exists_zmod_half t.length ⟨m, hm⟩
  have hp_mem : t.getD η "" ∈ t := getD_str_mem t η hη
  have hq_mem : t.getD ζ "" ∈ t := getD_str_mem t ζ hζ
  have hxp : x ≠ t.getD η "" := fun h => hxnot (h ▸ hp_mem)
  have hxq : x ≠ t.getD ζ "" := fun h => hxnot (h ▸ hq_mem)
  unfold roundPairs
  rw [List.countP_map]
  simp only [List.length_cons, List.length_rotate]
  have hAiff : ∀ i, 1 ≤ i → ∀ ν, ν < t.length →
      (t.getD ((i - 1 + c) % t.length) "" = t.getD ν "" ↔
        (i : ZMod t.length) - 1 + (c : ZMod t.length) = (ν : ZMod t.length)) := by
    intro i hi1 ν hν
    rw [show (t.getD ((i - 1 + c) % t.length) "" = t.getD ν "") ↔
        ((i - 1 + c) % t.length = ν) from
      ⟨fun h => getD_str_inj t hndt _ _ (Nat.mod_lt _ (by omega)) hν h,
        fun h => by rw [h]⟩]
    rw [mod_eq_iff_cast t.length _ ν hν, Nat.cast_add, Nat.cast_sub hi1, Nat.cast_one]
  have hBiff : ∀ i, i < t.length → ∀ ν, ν < t.length →
      (t.getD ((t.length - 1 - i + c) % t.length) "" = t.getD ν "" ↔
        -1 - (i : ZMod t.length) + (c : ZMod t.length) = (ν : ZMod t.length)) := by
    intro i hi ν hν
    rw [show (t.getD ((t.length - 1 - i + c) % t.length) "" = t.getD ν "") ↔
        ((t.length - 1 - i + c) % t.length = ν) from
      ⟨fun h => getD_str_inj t hndt _ _ (Nat.mod_lt _ (by omega)) hν h,
        fun h => by rw [h]⟩]
    rw [mod_eq_iff_cast t.length _ ν hν,
      show t.length - 1 - i = t.length - (1 + i) from by omega, Nat.cast_add,
      Nat.cast_sub (by omega : 1 + i ≤ t.length), ZMod.natCast_self, Nat.cast_add,
      Nat.cast_one]
    constructor
    · intro h
      rw [← h]
      ring
    · intro h
      rw [← h]
      ring
  have hslotmatch : ∀ i, 1 ≤ i → i < (t.length + 1) / 2 →
      (pairMatch (t.getD η "") (t.getD ζ "")
          ((x :: t.rotate c).getD i "",
            (x :: t.rotate c).getD (t.length + 1 - 1 - i) "") = true ↔
        (((i : ZMod t.length) - 1 + (c : ZMod t.length) = (η : ZMod t.length) ∧
          -1 - (i : ZMod t.length) + (c : ZMod t.length) = (ζ : ZMod t.length)) ∨
         ((i : ZMod t.length) - 1 + (c : ZMod t.length) = (ζ : ZMod t.length) ∧
          -1 - (i : ZMod t.length) + (c : ZMod t.length) = (η : ZMod t.length)))) := by
    intro i hi1 hiU
    have hA : (x :: t.rotate c).getD i "" = t.getD ((i - 1 + c) % t.length) "" := by
      obtain ⟨i', rfl⟩ : ∃ i', i = i' + 1 := ⟨i - 1, by omega⟩
      rw [List.getD_cons_succ, getD_rotate t c i' (by omega)]
      simp only [Nat.add_sub_cancel]
    have hB : (x :: t.rotate c).getD (t.length + 1 - 1 - i) "" =
        t.getD ((t.length - 1 - i + c) % t.length) "" := by
      rw [show t.length + 1 - 1 - i = (t.length - 1 - i) + 1 from by omega,
        List.getD_cons_succ, getD_rotate t c (t.length - 1 - i) (by omega)]
    rw [hA, hB, pairMatch_eval, hAiff i hi1 η hη, hAiff i hi1 ζ hζ,
      hBiff i (by omega) ζ hζ, hBiff i (by omega) η hη]
  have hslot0 : ∀ ν, ν < t.length → x ≠ t.getD ν "" →
      pairMatch (t.getD η "") (t.getD ζ "")
        ((x :: t.rotate c).getD 0 "",
          (x :: t.rotate c).getD (t.length + 1 - 1 - 0) "") = false := by
    intro ν hν hxν
    rw [Bool.eq_false_iff]
    intro hmatch
    rcases (pairMatch_eval _ _ _ _).mp hmatch with ⟨ha, -⟩ | ⟨ha, -⟩
    · exact hxp ha
    · exact hxq ha
  by_cases hcond : (η : ZMod t.length) + (ζ : ZMod t.length) + 2 =
      2 * (c : ZMod t.length)
  · rw [if_pos hcond]
    have h2w : 2 * (e * ((η : ZMod t.length) - (ζ : ZMod t.length))) = (η : ZMod t.length) - ζ := by
      rw [← mul_assoc, he, one_mul]
    have hwne : e * ((η : ZMod t.length) - (ζ : ZMod t.length)) ≠ 0 := by
      intro h0
      have hd : (η : ZMod t.length) - ζ = 0 := by
        rw [← h2w, h0, mul_zero]
      have hz : (η : ZMod t.length) = ζ := by
        have := sub_eq_zero.mp hd
        exact this
      have hval := congrArg ZMod.val hz
      rw [ZMod.val_natCast_of_lt hη, ZMod.val_natCast_of_lt hζ] at hval
      exact hne hval
    have hwv1 : 1 ≤ (e * ((η : ZMod t.length) - (ζ : ZMod t.length))).val := by
      have := (ZMod.val_eq_zero (e * ((η : ZMod t.length) - (ζ : ZMod t.length)))).not.mpr hwne
      omega
    have hwvM : (e * ((η : ZMod t.length) - (ζ : ZMod t.length))).val < t.length := ZMod.val_lt _
    have hcast_neg : ((t.length - (e * ((η : ZMod t.length) - (ζ : ZMod t.length))).val : Nat) :
        ZMod t.length) = -(e * ((η : ZMod t.length) - (ζ : ZMod t.length))) := by
      rw [Nat.cast_sub (by omega), ZMod.natCast_self, ZMod.natCast_zmod_val]
      ring
    have hnegval : (-(e * ((η : ZMod t.length) - (ζ : ZMod t.length)))).val =
        t.length - (e * ((η : ZMod t.length) - (ζ : ZMod t.length))).val := by
      rw [← hcast_neg, ZMod.val_natCast_of_lt (by omega)]
    refine countP_range_eq_one _
      (if (e * ((η : ZMod t.length) - (ζ : ZMod t.length))).val ≤ (t.length - 1) / 2 then
        (e * ((η : ZMod t.length) - (ζ : ZMod t.length))).val
       else t.length - (e * ((η : ZMod t.length) - (ζ : ZMod t.length))).val) _ ?_ ?_ ?_
    · split <;> omega
    · show pairMatch (t.getD η "") (t.getD ζ "")
        ((x :: t.rotate c).getD _ "", (x :: t.rotate c).getD (t.length + 1 - 1 - _) "") =
          true
      rw [hslotmatch _ (by split <;> omega) (by split <;> omega)]
      split
      · -- the slot index casts to e * (η - ζ)
        rw [ZMod.natCast_zmod_val]
        left
        constructor
        · refine zmod_two_mul_inj t.length e he _ _ ?_
          linear_combination h2w - hcond
        · refine zmod_two_mul_inj t.length e he _ _ ?_
          linear_combination - h2w - hcond
      · rw [hcast_neg]
        right
        constructor
        · refine zmod_two_mul_inj t.length e he _ _ ?_
          linear_combination - h2w - hcond
        · refine zmod_two_mul_inj t.length e he _ _ ?_
          linear_combination h2w - hcond
    · intro i hiU hqi
      simp only [Function.comp] at hqi
      rcases Nat.eq_zero_or_pos i with rfl | hi1
      · rw [hslot0 η hη hxp] at hqi
        exact Bool.noConfusion hqi
      · rw [hslotmatch i hi1 hiU] at hqi
        have hiM : i < t.length := by omega
        rcases hqi with ⟨h1, h2⟩ | ⟨h1, h2⟩
        · have hicast : (i : ZMod t.length) = e * ((η : ZMod t.length) - (ζ : ZMod t.length)) := by
            refine zmod_two_mul_inj t.length e he _ _ ?_
            linear_combination h1 - h2 - h2w
          have hival : i = (e * ((η : ZMod t.length) - (ζ : ZMod t.length))).val := by
            have := congrArg ZMod.val hicast
            rw [ZMod.val_natCast_of_lt hiM] at this
            exact this
          rw [if_pos (by omega : (e * ((η : ZMod t.length) - (ζ : ZMod t.length))).val ≤
            (t.length - 1) / 2)]
          omega
        · have hicast : (i : ZMod t.length) = -(e * ((η : ZMod t.length) - (ζ : ZMod t.length))) := by
            refine zmod_two_mul_inj t.length e he _ _ ?_
            linear_combination h1 - h2 + h2w
          have hival : i = t.length - (e * ((η : ZMod t.length) - (ζ : ZMod t.length))).val := by
            have := congrArg ZMod.val hicast
            rw [ZMod.val_natCast_of_lt hiM, hnegval] at this
            exact this
          rw [if_neg (by omega : ¬ (e * ((η : ZMod t.length) - (ζ : ZMod t.length))).val ≤
            (t.length - 1) / 2)]
          omega
  · rw [if_neg hcond]
    refine countP_range_eq_zero _ _ ?_
    intro i hiU
    simp only [Function.comp]
    rcases Nat.eq_zero_or_pos i with rfl | hi1
    · exact hslot0 η hη hxp
    · rw [Bool.eq_false_iff]
      intro hmatch
      rw [hslotmatch i hi1 hiU] at hmatch
      rcases hmatch with ⟨h1, h2⟩ | ⟨h1, h2⟩
      · exact hcond (by linear_combination - h1 - h2)
      · exact hcond (by linear_combination - h1 - h2)

lemma pairMatch_comm (p q : String) : pairMatch p q = pairMatch q p := by
  funext ab
  simp [pairMatch, Bool.or_comm]

/-- Across the full tournament every pair `(x, tail element)` occurs in
exactly one round. -/
lemma allRoundPairs_countP_pair_head (x : String) (t : List String)
    (hnd : (x :: t).Nodup) (w : Nat) (hw : w < t.length) :
    (allRoundPairs t.length (x :: t)).countP (pairMatch x (t.getD w "")) = 1 := by
  have ht : t ≠ [] := by
    intro h
    rw [h] at hw
    simp at hw
  rw [countP_allRoundPairs]
  refine sum_map_range_eq_one t.length (t.length - 1 - w) _ (by omega) ?_ ?_
  · rw [rotateTeams_iterate x t ht (t.length - 1 - w),
      roundPairs_rotate_countP_head x t _ hnd (by omega) w hw,
      head_partner_mod t.length (t.length - 1 - w) (by omega) (by omega),
      if_pos (by omega)]
  · intro r hr hrne
    rw [rotateTeams_iterate x t ht r,
      roundPairs_rotate_countP_head x t _ hnd (by omega) w hw,
      head_partner_mod t.length r (by omega) hr,
      if_neg (by omega)]

/-- Across the full tournament every pair of distinct tail elements occurs
in exactly one round. -/
lemma allRoundPairs_countP_pair_tail (x : String) (t : List String)
    (hnd : (x :: t).Nodup) (hModd : Odd t.length)
    (η ζ : Nat) (hη : η < t.length) (hζ : ζ < t.length) (hne : η ≠ ζ) :
    (allRoundPairs t.length (x :: t)).countP
      (pairMatch (t.getD η "") (t.getD ζ "")) = 1 := by
  obtain ⟨m, hm⟩ := hModd
  have hM2 : 2 ≤ t.length := by omega
  have ht : t ≠ [] := by
    intro h
    rw [h] at hM2
    simp at hM2
  haveI : NeZero t.length := ⟨by omega⟩
  obtain ⟨e, he⟩ := exists_zmod_half t.length ⟨m, hm⟩
  have hcast : ∀ r : Nat, ((r * (t.length - 1) : Nat) : ZMod t.length) =
      -(r : ZMod t.length) := by
    intro r
    rw [Nat.cast_mul, Nat.cast_sub (by omega : 1 ≤ t.length),
      ZMod.natCast_self, Nat.cast_one]
    ring
  set r₀ := (e * (-((η : ZMod t.length) + (ζ : ZMod t.length) + 2))).val with hr₀
  have hv : ((r₀ : Nat) : ZMod t.length) =
      e * (-((η : ZMod t.length) + (ζ : ZMod t.length) + 2)) :=
    ZMod.natCast_zmod_val _
  have h2r₀ : 2 * ((r₀ : Nat) : ZMod t.length) =
      -((η : ZMod t.length) + (ζ : ZMod t.length) + 2) := by
    rw [hv, ← mul_assoc, he, one_mul]
  rw [countP_allRoundPairs]
  refine sum_map_range_eq_one t.length r₀ _ (ZMod.val_lt _) ?_ ?_
  · rw [rotateTeams_iterate x t ht r₀,
      roundPairs_rotate_countP_tail x t _ hnd ⟨m, hm⟩ η ζ hη hζ hne,
      hcast r₀, if_pos (by linear_combination h2r₀)]
  · intro r hr hrne
    rw [rotateTeams_iterate x t ht r,
      roundPairs_rotate_countP_tail x t _ hnd ⟨m, hm⟩ η ζ hη hζ hne,
      hcast r, if_neg ?_]
    intro hcond
    have h2r : 2 * ((r : Nat) : ZMod t.length) =
        2 * ((r₀ : Nat) : ZMod t.length) := by
      rw [h2r₀]
      linear_combination hcond
    have := zmod_two_mul_inj t.length e he _ _ h2r
    have hval := congrArg ZMod.val this
    rw [ZMod.val_natCast_of_lt hr, ZMod.val_natCast_of_lt (ZMod.val_lt _)] at hval
    exact hrne hval

/-- The defining round-robin property at the level of pair lists: for an
even-sized, duplicate-free team list every unordered pair of distinct
teams is generated exactly once over the `length - 1` rounds. -/
lemma allRoundPairs_countP_pair (x : String) (t : List String)
    (hnd : (x :: t).Nodup) (hModd : Odd t.length)
    (p q : String) (hp : p ∈ x :: t) (hq : q ∈ x :: t) (hne : p ≠ q) :
    (allRoundPairs t.length (x :: t)).countP (pairMatch p q) = 1 := by
  obtain ⟨hxnot, hndt⟩ := List.nodup_cons.mp hnd
  rcases List.mem_cons.mp hp with rfl | hpt
  · rcases List.mem_cons.mp hq with rfl | hqt
    · exact absurd rfl hne
    · rcases List.mem_iff_getElem.mp hqt with ⟨w, hw, hqe⟩
      rw [show q = t.getD w "" from by rw [getD_str_eq_getElem _ _ hw, hqe]]
      exact allRoundPairs_countP_pair_head p t hnd w hw
  · rcases List.mem_cons.mp hq with rfl | hqt
    · rcases List.mem_iff_getElem.mp hpt with ⟨w, hw, hpe⟩
      rw [pairMatch_comm,
        show p = t.getD w "" from by rw [getD_str_eq_getElem _ _ hw, hpe]]
      exact allRoundPairs_countP_pair_head q t hnd w hw
    · rcases List.mem_iff_getElem.mp hpt with ⟨η, hη, hpe⟩
      rcases List.mem_iff_getElem.mp hqt with ⟨ζ, hζ, hqe⟩
      have hidx : η ≠ ζ := by
        intro h
        subst h
        exact hne (hpe.symm.trans hqe)
      rw [show p = t.getD η "" from by rw [getD_str_eq_getElem _ _ hη, hpe],
        show q = t.getD ζ "" from by rw [getD_str_eq_getElem _ _ hζ, hqe]]
      exact allRoundPairs_countP_pair_tail x t hnd hModd η ζ hη hζ hidx

/-- In one round of an even-sized duplicate-free list containing the
placeholder, exactly one generated pair involves the placeholder. -/
lemma roundPairs_countP_dummy (teams : List String) (hnd : teams.Nodup)
    (heven : teams.length % 2 = 0) (hmem : "dummy" ∈ teams) :
    (roundPairs teams).countP (fun ab => ! nonDummy ab) = 1 := by
  rcases List.mem_iff_getElem.mp hmem with ⟨j₀, hj₀, hget⟩
  have hdum : teams.getD j₀ "" = "dummy" := by
    rw [getD_str_eq_getElem _ _ hj₀, hget]
  have hiff : ∀ i, i < teams.length → (teams.getD i "" = "dummy" ↔ i = j₀) := by
    intro i hi
    constructor
    · intro h
      exact getD_str_inj teams hnd i j₀ hi hj₀ (h.trans hdum.symm)
    · intro h
      rw [h]
      exact hdum
  obtain ⟨k, hk⟩ : ∃ k, teams.length = 2 * k := ⟨teams.length / 2, by omega⟩
  have hk1 : 1 ≤ k := by omega
  have hne : j₀ ≠ teams.length - 1 - j₀ := by omega
  unfold roundPairs
  rw [List.countP_map]
  have hq : ∀ i, ((fun ab => ! nonDummy ab) ∘ fun i =>
      (teams.getD i "", teams.getD (teams.length - 1 - i) "")) i = true ↔
      (teams.getD i "" = "dummy" ∨ teams.getD (teams.length - 1 - i) "" = "dummy") := by
    intro i
    simp [nonDummy]
  refine countP_range_eq_one _ (min j₀ (teams.length - 1 - j₀)) _ (by omega) ?_ ?_
  · rw [hq]
    rcases Nat.lt_or_ge j₀ (teams.length - 1 - j₀) with hlt | hge
    · rw [Nat.min_eq_left (by omega)]
      left
      exact hdum
    · rw [Nat.min_eq_right (by omega)]
      right
      rw [show teams.length - 1 - (teams.length - 1 - j₀) = j₀ from by omega]
      exact hdum
  · intro i hi hqi
    rw [hq] at hqi
    rcases hqi with h | h
    · have := (hiff i (by omega)).mp h
      omega
    · have := (hiff (teams.length - 1 - i) (by omega)).mp h
      omega

/-- Across all rounds of an even-sized duplicate-free list containing the
placeholder, the number of placeholder-involving pairs equals the number
of rounds. -/
lemma allRoundPairs_countP_dummy (x : String) (t : List String)
    (hnd : (x :: t).Nodup) (hModd : Odd t.length) (hmem : "dummy" ∈ x :: t) :
    (allRoundPairs t.length (x :: t)).countP (fun ab => ! nonDummy ab) =
      t.length := by
  obtain ⟨m, hm⟩ := hModd
  have ht : t ≠ [] := by
    intro h
    rw [h] at hm
    simp at hm
  rw [countP_allRoundPairs]
  refine sum_map_range_const_one _ _ ?_
  intro r hr
  rw [rotateTeams_iterate x t ht r]
  have hperm : List.Perm (x :: t.rotate (r * (t.length - 1))) (x :: t) :=
    List.Perm.cons x (List.rotate_perm t _)
  refine roundPairs_countP_dummy _ (hperm.nodup_iff.mpr hnd) ?_
    (hperm.mem_iff.mpr hmem)
  simp only [List.length_cons, List.length_rotate]
  omega

lemma countP_add_countP_not (l : List (String × String))
    (p : String × String → Bool) :
    l.countP p + l.countP (fun ab => ! p ab) = l.length := by
  induction l with
  | nil => rfl
  | cons ab l ih =>
    rw [List.countP_cons, List.countP_cons, List.length_cons]
    cases h : p ab
    · rw [if_neg (by simp [h]), if_pos (by simp [h])]
      omega
    · rw [if_pos (by simp [h]), if_neg (by simp [h])]
      omega

lemma pairMatch_nonDummy (p q : String) (hp : p ≠ "dummy") (hq : q ≠ "dummy")
    (ab : String × String) (h : pairMatch p q ab = true) : nonDummy ab = true := by
  obtain ⟨a, b⟩ := ab
  rcases (pairMatch_eval p q a b).mp h with ⟨rfl, rfl⟩ | ⟨rfl, rfl⟩ <;>
    simp [nonDummy, hp, hq]

/-- Filtering out placeholder pairs does not change the count of pairs of
two real (non-placeholder) participants. -/
lemma countP_filter_pairMatch (p q : String) (hp : p ≠ "dummy") (hq : q ≠ "dummy")
    (l : List (String × String)) :
    (l.filter nonDummy).countP (pairMatch p q) = l.countP (pairMatch p q) := by
  rw [List.countP_filter]
  refine List.countP_congr ?_
  intro ab _
  constructor
  · intro h
    exact ((Bool.and_eq_true _ _).mp h).1
  · intro h
    exact (Bool.and_eq_true _ _).mpr ⟨h, pairMatch_nonDummy p q hp hq ab h⟩

/-- Every emitted fixture carries the two components of some pair of the
input list. -/
lemma mem_emitFrom (lid : String) (venue : Option String) (start db : Int) :
    ∀ (k : Nat) (ps : List (String × String)) (f : Fixture),
      f ∈ emitFrom lid venue start db k ps →
      ∃ ab ∈ ps, f.teamA = ab.1 ∧ f.teamB = ab.2 := by
  intro k ps
  induction ps generalizing k with
  | nil => intro f hf; simp [emitFrom] at hf
  | cons ab ps ih =>
    intro f hf
    rw [show emitFrom lid venue start db k (ab :: ps) =
      { league := lid, teamA := ab.1, teamB := ab.2,
        scheduledDate := start + (k : Int) * db * msPerDay,
        location := venue, status := "scheduled" } ::
        emitFrom lid venue start db (k + 1) ps from rfl] at hf
    rcases List.mem_cons.mp hf with rfl | hf
    · exact ⟨ab, List.mem_cons_self _ _, rfl, rfl⟩
    · rcases ih (k + 1) f hf with ⟨ab', hab', h1, h2⟩
      exact ⟨ab', List.mem_cons_of_mem _ hab', h1, h2⟩

/-- The count of fixtures pairing `p` and `q` equals the count of emitted
pairs matching `p` and `q`. -/
lemma emitFrom_countP (lid : String) (venue : Option String) (start db : Int)
    (p q : String) :
    ∀ (k : Nat) (ps : List (String × String)),
      (emitFrom lid venue start db k ps).countP (fixtureMatch p q) =
        ps.countP (pairMatch p q) := by
  intro k ps
  induction ps generalizing k with
  | nil => rfl
  | cons ab ps ih =>
    rw [show emitFrom lid venue start db k (ab :: ps) =
      { league := lid, teamA := ab.1, teamB := ab.2,
        scheduledDate := start + (k : Int) * db * msPerDay,
        location := venue, status := "scheduled" } ::
        emitFrom lid venue start db (k + 1) ps from rfl]
    rw [List.countP_cons, List.countP_cons, ih (k + 1)]
    congr 1

lemma paddedTeams_even (ids : List String) (h : ids.length % 2 = 0) :
    paddedTeams ids = ids := by
  unfold paddedTeams
  rw [if_neg (by simp [h])]

lemma paddedTeams_odd (ids : List String) (h : ids.length % 2 = 1) :
    paddedTeams ids = ids ++ ["dummy"] := by
  unfold paddedTeams
  rw [if_pos (by simp [h])]

/-- The generator's filtered pair list has exactly `n (n-1) / 2` pairs,
each unordered pair of distinct real participants exactly once, and every
pair made of two distinct real participants. -/
lemma filtered_pairs_spec (ids : List String)
    (hnd : ids.Nodup) (hn : 2 ≤ ids.length) (hdum : "dummy" ∉ ids) :
    (((allRoundPairs ((paddedTeams ids).length - 1) (paddedTeams ids)).filter
        nonDummy).length = ids.length * (ids.length - 1) / 2) ∧
    (∀ p q, p ∈ ids → q ∈ ids → p ≠ q →
      ((allRoundPairs ((paddedTeams ids).length - 1) (paddedTeams ids)).filter
          nonDummy).countP (pairMatch p q) = 1) ∧
    (∀ ab ∈ (allRoundPairs ((paddedTeams ids).length - 1) (paddedTeams ids)).filter
        nonDummy, ab.1 ∈ ids ∧ ab.2 ∈ ids ∧ ab.1 ≠ ab.2) := by
  obtain ⟨x, rest, rfl⟩ : ∃ x rest, ids = x :: rest := by
    cases ids with
    | nil => simp at hn
    | cons x rest => exact ⟨x, rest, rfl⟩
  rcases Nat.mod_two_eq_zero_or_one (x :: rest).length with h0 | h1
  · -- even participant count: no padding
    rw [paddedTeams_even _ h0,
      show (x :: rest).length - 1 = rest.length from by simp]
    have hOdd : Odd rest.length := by
      simp only [List.length_cons] at h0
      exact Nat.odd_iff.mpr (by omega)
    have hall : ∀ ab ∈ allRoundPairs rest.length (x :: rest), nonDummy ab = true := by
      intro ab hab
      have hmem := mem_allRoundPairs rest.length (x :: rest) ab hab hnd h0
      have hd1 : ab.1 ≠ "dummy" := fun h => hdum (h ▸ hmem.1)
      have hd2 : ab.2 ≠ "dummy" := fun h => hdum (h ▸ hmem.2.1)
      simp [nonDummy, hd1, hd2]
    rw [List.filter_eq_self.mpr hall]
    refine ⟨?_, ?_, ?_⟩
    · rw [length_allRoundPairs]
      obtain ⟨k, hk⟩ : ∃ k, rest.length = 2 * k + 1 := by
        simp only [List.length_cons] at h0
        exact ⟨rest.length / 2, by omega⟩
      simp only [List.length_cons]
      rw [hk, show (2 * k + 1 + 1) / 2 = k + 1 from by omega,
        show (2 * k + 1 + 1) * (2 * k + 1) = 2 * ((2 * k + 1) * (k + 1)) from by ring,
        Nat.mul_div_cancel_left _ (by norm_num : 0 < 2)]
    · intro p q hp hq hne
      exact allRoundPairs_countP_pair x rest hnd hOdd p q hp hq hne
    · intro ab hab
      exact mem_allRoundPairs rest.length (x :: rest) ab hab hnd h0
  · -- odd participant count: the placeholder is appended
    rw [paddedTeams_odd _ h1,
      show (x :: rest) ++ ["dummy"] = x :: (rest ++ ["dummy"]) from rfl,
      show (x :: (rest ++ ["dummy"])).length - 1 = (rest ++ ["dummy"]).length
        from by simp]
    have hlen2 : (rest ++ ["dummy"]).length = rest.length + 1 := by simp
    have hOdd : Odd (rest ++ ["dummy"]).length := by
      rw [hlen2]
      simp only [List.length_cons] at h1
      exact Nat.odd_iff.mpr (by omega)
    have hxrest : x ∉ rest := (List.nodup_cons.mp hnd).1
    have hndrest : rest.Nodup := (List.nodup_cons.mp hnd).2
    have hxdum : x ≠ "dummy" := fun h => hdum (h ▸ List.mem_cons_self x rest)
    have hdumrest : "dummy" ∉ rest := fun h => hdum (List.mem_cons_of_mem _ h)
    have hnd' : (x :: (rest ++ ["dummy"])).Nodup := by
      rw [List.nodup_cons]
      refine ⟨?_, ?_⟩
      · intro hmem
        rcases List.mem_append.mp hmem with h | h
        · exact hxrest h
        · simp only [List.mem_singleton] at h
          exact hxdum h
      · refine List.Nodup.append hndrest (List.nodup_singleton _) ?_
        intro a ha hb
        simp only [List.mem_singleton] at hb
        subst hb
        exact hdumrest ha
    have heven' : (x :: (rest ++ ["dummy"])).length % 2 = 0 := by
      rw [List.length_cons, hlen2]
      simp only [List.length_cons] at h1
      omega
    have hup : ∀ p, p ∈ x :: rest → p ∈ x :: (rest ++ ["dummy"]) := by
      intro p hp
      rcases List.mem_cons.mp hp with rfl | hp
      · exact List.mem_cons_self _ _
      · exact List.mem_cons_of_mem _ (List.mem_append.mpr (Or.inl hp))
    refine ⟨?_, ?_, ?_⟩
    · obtain ⟨k, hk⟩ : ∃ k, rest.length = 2 * k := by
        simp only [List.length_cons] at h1
        exact ⟨rest.length / 2, by omega⟩
      rw [← List.countP_eq_length_filter]
      have hsum := countP_add_countP_not
        (allRoundPairs (rest ++ ["dummy"]).length (x :: (rest ++ ["dummy"])))
        nonDummy
      rw [allRoundPairs_countP_dummy x (rest ++ ["dummy"]) hnd' hOdd
          (List.mem_cons_of_mem _ (List.mem_append.mpr (Or.inr (by simp)))),
        length_allRoundPairs] at hsum
      have hlen3 : (x :: (rest ++ ["dummy"])).length = 2 * k + 2 := by
        rw [List.length_cons, hlen2, hk]
      rw [hlen3, hlen2, hk] at hsum
      rw [show (2 * k + 2) / 2 = k + 1 from by omega,
        show (2 * k + 1) * (k + 1) = (2 * k + 1) * k + (2 * k + 1) from by ring]
        at hsum
      rw [hlen2, hk, show (x :: rest).length = rest.length + 1 from by simp, hk,
        show (2 * k + 1) * (2 * k + 1 - 1) = 2 * ((2 * k + 1) * k) from by
          rw [show 2 * k + 1 - 1 = 2 * k from by omega]; ring,
        Nat.mul_div_cancel_left _ (by norm_num : 0 < 2)]
      exact Nat.add_right_cancel hsum
    · intro p q hp hq hne
      have hpd : p ≠ "dummy" := fun h => hdum (h ▸ hp)
      have hqd : q ≠ "dummy" := fun h => hdum (h ▸ hq)
      rw [countP_filter_pairMatch p q hpd hqd]
      exact allRoundPairs_countP_pair x (rest ++ ["dummy"]) hnd' hOdd p q
        (hup p hp) (hup q hq) hne
    · intro ab hab
      have habP := List.mem_filter.mp hab
      have hmem := mem_allRoundPairs (rest ++ ["dummy"]).length
        (x :: (rest ++ ["dummy"])) ab habP.1 hnd' heven'
      have hnd12 : ab.1 ≠ "dummy" ∧ ab.2 ≠ "dummy" := by
        have h := habP.2
        simp only [nonDummy, Bool.and_eq_true, bne_iff_ne, ne_eq] at h
        exact h
      have hdown : ∀ y, y ∈ x :: (rest ++ ["dummy"]) → y ≠ "dummy" →
          y ∈ x :: rest := by
        intro y hy hyne
        rcases List.mem_cons.mp hy with rfl | hy
        · exact List.mem_cons_self _ _
        · rcases List.mem_append.mp hy with h | h
          · exact List.mem_cons_of_mem _ h
          · simp only [List.mem_singleton] at h
            exact absurd h hyne
      exact ⟨hdown _ hmem.1 hnd12.1, hdown _ hmem.2.1 hnd12.2, hmem.2.2⟩

/-! ### C1 : round-robin correctness -/

/-- C1 counterexample: the participant ids `["a", "b", "dummy"]` are
distinct and the window precondition holds (3 days for 3 matches), yet the
generator succeeds with a single fixture instead of `3 * (3 - 1) / 2 = 3`,
and the unordered pair `{a, dummy}` appears in no fixture: an id equal to
the literal bye placeholder `"dummy"` silently breaks the claimed
round-robin property. -/
theorem roundRobin_dummy_id_counterexample :
    ∃ fs, generateRoundRobinSchedule "L" ["a", "b", "dummy"] 0 (3 * msPerDay) none
        = .ok fs ∧ fs.length ≠ 3 * (3 - 1) / 2 ∧
      fs.countP (fixtureMatch "a" "dummy") ≠ 1 := by
  refine ⟨_, rfl, by decide, by decide⟩

/-- C1 (amended: the participant ids must also avoid the literal
placeholder string "dummy"): for every list of n ≥ 2 distinct participant
ids none of which is "dummy" and every window satisfying the scheduling
precondition, the generator succeeds with exactly `n * (n - 1) / 2`
fixtures, every unordered pair of distinct participants appears in exactly
one fixture, and every fixture pairs two distinct real participants (so
no fixture pairs a participant with itself or references the bye
placeholder, also for odd n). -/
theorem roundRobin_correct (lid : String) (ids : List String)
    (s e : Int) (v : Option String)
    (hnd : ids.Nodup) (hn : 2 ≤ ids.length) (hdum : "dummy" ∉ ids)
    (hw : ¬ totalDaysOf s e < (totalMatchesOf ids.length : Int)) :
    ∃ fs, generateRoundRobinSchedule lid ids s e v = .ok fs ∧
      fs.length = ids.length * (ids.length - 1) / 2 ∧
      (∀ p q, p ∈ ids → q ∈ ids → p ≠ q → fs.countP (fixtureMatch p q) = 1) ∧
      (∀ f ∈ fs, f.teamA ∈ ids ∧ f.teamB ∈ ids ∧ f.teamA ≠ f.teamB) := by
  obtain ⟨hlen, hcount, hmem⟩ := filtered_pairs_spec ids hnd hn hdum
  refine ⟨_, generateRoundRobinSchedule_ok_eq lid ids s e v (by omega) hw,
    ?_, ?_, ?_⟩
  · rw [emitFrom_length]
    exact hlen
  · intro p q hp hq hne
    rw [emitFrom_countP]
    exact hcount p q hp hq hne
  · intro f hf
    rcases mem_emitFrom lid v s _ 0 _ f hf with ⟨ab, hab, h1, h2⟩
    have hm := hmem ab hab
    rw [h1, h2]
    exact hm

/-- C1 witness: the amended theorem at the claim's own example size n = 5
(ids a..e, a 10-day window): 10 fixtures, each unordered pair once, all
fixtures between distinct real participants. -/
theorem roundRobin_correct_witness :
    ∃ fs, generateRoundRobinSchedule "L" ["a", "b", "c", "d", "e"] 0
        (10 * msPerDay) none = .ok fs ∧
      fs.length = (["a", "b", "c", "d", "e"] : List String).length *
        ((["a", "b", "c", "d", "e"] : List String).length - 1) / 2 ∧
      (∀ p q, p ∈ (["a", "b", "c", "d", "e"] : List String) →
        q ∈ (["a", "b", "c", "d", "e"] : List String) → p ≠ q →
        fs.countP (fixtureMatch p q) = 1) ∧
      (∀ f ∈ fs, f.teamA ∈ (["a", "b", "c", "d", "e"] : List String) ∧
        f.teamB ∈ (["a", "b", "c", "d", "e"] : List String) ∧
        f.teamA ≠ f.teamB) :=
  roundRobin_correct "L" ["a", "b", "c", "d", "e"] 0 (10 * msPerDay) none
    (by decide) (by decide) (by decide) (by decide)

end Padel
